import Mathlib

/-! # eve-profile-sync: the backup / validate / replace workflow

A shallow embedding of the Go packages `internal/profile`, `internal/sync`,
`internal/backup` and of `cmd.runSync`.

* File names and messages are `String`s, file contents are lists of bytes.
* A path is the list of its components, so `filepath.Join dir name` appends one
  component and `filepath.Base` takes the last one.
* The file system is an explicit value `FS` threaded through every operation; each
  `os.*` call of the source is a function on it that returns the `error` of the call
  together with the file system after the call. A write that fails leaves the file as
  it was (the failure is the refusal to open it).
* `filepath.Walk` runs over a tree of directories and regular files, the directory as
  the walk finds it; `archive/zip` and `compress/flate` are parameters.
* `runSync` runs over any implementation of the functions it calls and records the
  calls it makes.
* `time.Now()` is the reading of the local clock, by its calendar fields; `localTime`
  gives the reading at an instant in a location.
* A Go `error` is its message: `fmt.Errorf("...: %w", err)` is string concatenation.
-/

namespace EveProfileSync

/-! ## Strings and paths -/

deriving instance DecidableEq for Except

/-- File contents: an opaque sequence of bytes. -/
abbrev Bytes := List UInt8

/-- A path, as the list of its components. -/
abbrev Path := List String

/-- `filepath.Join(dir, name)` for a single component `name`. -/
def Join (dir : Path) (name : String) : Path := dir ++ [name]

/-- `filepath.Base(path)`: the last component (`"."` for the empty path). -/
def Base (p : Path) : String := p.getLast?.getD "."

/-- The text of a path inside a message. -/
def pathString (p : Path) : String := "/".intercalate p

/-- `strings.HasPrefix(s, pfx)`. -/
def HasPrefix (s pfx : String) : Bool := pfx.toList.isPrefixOf s.toList

/-- `strings.HasSuffix(s, sfx)`. -/
def HasSuffix (s sfx : String) : Bool := sfx.toList.isSuffixOf s.toList

/-- Byte-wise `<=` on strings, the order in which `os.ReadDir` sorts names. -/
def charsLE : List Char → List Char → Bool
  | [], _ => true
  | _ :: _, [] => false
  | a :: as, b :: bs =>
    if a.toNat < b.toNat then true
    else if b.toNat < a.toNat then false
    else charsLE as bs

/-! ## internal/profile/parser.go -/

/-- Consume the literal `lit` at the head of `s`. -/
def dropLiteral : List Char → List Char → Option (List Char)
  | [], s => some s
  | _ :: _, [] => none
  | l :: ls, c :: cs => if l = c then dropLiteral ls cs else none

/-- `regexp.MustCompile("^" + lit + "(\d+)\.dat$").FindStringSubmatch(s)`: the whole
match and the digit group, or the empty slice when the text does not match. `\d+` is
matched greedily; what follows must be exactly `.dat` up to the end of the text. -/
def FindStringSubmatch (lit : String) (s : String) : List String :=
  match dropLiteral lit.toList s.toList with
  | none => []
  | some rest =>
    let digits := rest.takeWhile Char.isDigit
    let tail := rest.dropWhile Char.isDigit
    if digits ≠ [] ∧ tail = ".dat".toList then [s, String.mk digits] else []

/-- `userIDRegex = ^core_user_(\d+)\.dat$`. -/
def userIDRegex : String → List String := FindStringSubmatch "core_user_"

/-- `characterIDRegex = ^core_char_(\d+)\.dat$`. -/
def characterIDRegex : String → List String := FindStringSubmatch "core_char_"

/-- `ExtractUserID` of parser.go. -/
def ExtractUserID (filename : String) : Except String String :=
  let ms := userIDRegex filename
  if ms.length < 2 then .error ("invalid user filename format: " ++ filename)
  else .ok (ms.getD 1 "")

/-- `ExtractCharacterID` of parser.go. -/
def ExtractCharacterID (filename : String) : Except String String :=
  let ms := characterIDRegex filename
  if ms.length < 2 then .error ("invalid character filename format: " ++ filename)
  else .ok (ms.getD 1 "")

/-! ## The file system -/

/-- The errors of the `os` calls. -/
inductive OSErr where
  | notExist
  | permission
  | isDir
  | notDir
  | notEmpty
  | io
  deriving DecidableEq, Repr

/-- `err.Error()`. -/
def OSErr.Error : OSErr → String
  | .notExist => "no such file or directory"
  | .permission => "permission denied"
  | .isDir => "is a directory"
  | .notDir => "not a directory"
  | .notEmpty => "directory not empty"
  | .io => "input/output error"

/-- `os.IsNotExist(err)`. -/
def OSErr.IsNotExist : OSErr → Bool
  | .notExist => true
  | _ => false

/-- A regular file: its bytes, whether it can be opened for reading and for writing,
and whether reading an opened descriptor succeeds. -/
structure FileNode where
  data : Bytes
  readable : Bool
  writable : Bool
  sound : Bool
  deriving DecidableEq, Repr

/-- A directory: whether it can be listed, whether entries can be added to it and
removed from it, and the size `Stat` reports for it. -/
structure DirNode where
  listable : Bool
  allowCreate : Bool
  allowRemove : Bool
  size : Nat
  deriving DecidableEq, Repr

/-- What a path names. -/
inductive Node where
  | file (f : FileNode)
  | dir (d : DirNode)
  deriving DecidableEq, Repr

/-- `info.IsDir()`. -/
def Node.IsDir : Node → Bool
  | .file _ => false
  | .dir _ => true

/-- `info.Size()`. -/
def Node.Size : Node → Nat
  | .file f => f.data.length
  | .dir d => d.size

/-- The file system: the node of every existing path, and the paths that cannot be
reached at all (every call on them fails with a permission error). -/
structure FS where
  nodes : List (Path × Node)
  denied : List Path
  deriving DecidableEq, Repr

/-- The node bound to `p` in a store. -/
def lookup (p : Path) : List (Path × Node) → Option Node
  | [] => none
  | (q, n) :: rest => if q = p then some n else lookup p rest

/-- Bind `p` to `n`: in place when `p` is bound, at the end otherwise. -/
def store (p : Path) (n : Node) : List (Path × Node) → List (Path × Node)
  | [] => [(p, n)]
  | (q, m) :: rest => if q = p then (q, n) :: rest else (q, m) :: store p n rest

/-- Remove the binding of `p`. -/
def unbind (p : Path) (l : List (Path × Node)) : List (Path × Node) :=
  l.filter (fun qn => decide (qn.1 ≠ p))

/-- The node at `p`, if the path exists. -/
def FS.find (fs : FS) (p : Path) : Option Node := lookup p fs.nodes

/-- The bytes of the regular file at `p`. -/
def FS.content (fs : FS) (p : Path) : Option Bytes :=
  match fs.find p with
  | some (.file f) => some f.data
  | _ => none

/-- `os.Stat(p)`. -/
def FS.Stat (fs : FS) (p : Path) : Except OSErr Node :=
  if p ∈ fs.denied then .error .permission
  else match fs.find p with
    | none => .error .notExist
    | some n => .ok n

/-- `os.Open(p)` for reading: the opened file. -/
def FS.Open (fs : FS) (p : Path) : Except OSErr Node :=
  match fs.Stat p with
  | .error e => .error e
  | .ok (.dir d) => .ok (.dir d)
  | .ok (.file f) => if f.readable then .ok (.file f) else .error .permission

/-- `os.ReadFile(p)`. -/
def FS.ReadFile (fs : FS) (p : Path) : Except OSErr Bytes :=
  match fs.Open p with
  | .error e => .error e
  | .ok (.dir _) => .error .isDir
  | .ok (.file f) => if f.sound then .ok f.data else .error .io

/-- One `os.DirEntry`. -/
structure DirEntry where
  Name : String
  IsDir : Bool
  deriving DecidableEq, Repr

/-- The name under which `q` is a direct child of `dir`, if it is one. -/
def childName (dir q : Path) : Option String :=
  if q.dropLast = dir then q.getLast? else none

/-- The direct children of `dir` in a store, in store order. -/
def children (dir : Path) (l : List (Path × Node)) : List DirEntry :=
  l.filterMap (fun qn => (childName dir qn.1).map (fun name => ⟨name, qn.2.IsDir⟩))

/-- `os.ReadDir(p)`: the direct children, sorted by file name. -/
def FS.ReadDir (fs : FS) (p : Path) : Except OSErr (List DirEntry) :=
  match fs.Stat p with
  | .error e => .error e
  | .ok (.file _) => .error .notDir
  | .ok (.dir d) =>
    if d.listable then
      .ok ((children p fs.nodes).insertionSort
        (fun a b => charsLE a.Name.toList b.Name.toList = true))
    else .error .permission

/-- Open `p` with `O_CREATE|O_TRUNC` and leave `data` in it: an existing file must be
writable (and readable too when `rd` is set), a missing one needs a parent directory
that accepts new entries. On failure nothing changes. -/
def FS.openTrunc (fs : FS) (rd : Bool) (p : Path) (data : Bytes) : Except OSErr Unit × FS :=
  if p ∈ fs.denied then (.error .permission, fs)
  else match fs.find p with
    | some (.dir _) => (.error .isDir, fs)
    | some (.file f) =>
      if f.writable && (!rd || f.readable) then
        (.ok (), { fs with nodes := store p (.file { f with data := data }) fs.nodes })
      else (.error .permission, fs)
    | none =>
      match fs.find p.dropLast with
      | some (.dir d) =>
        if d.allowCreate then
          (.ok (), { fs with nodes := store p (.file ⟨data, true, true, true⟩) fs.nodes })
        else (.error .permission, fs)
      | some (.file _) => (.error .notDir, fs)
      | none => (.error .notExist, fs)

/-- `os.WriteFile(p, data, 0644)`: truncate-and-rewrite. -/
def FS.WriteFile (fs : FS) (p : Path) (data : Bytes) : Except OSErr Unit × FS :=
  fs.openTrunc false p data

/-- `os.Create(p)` followed by `Close`: an empty file opened `O_RDWR|O_CREATE|O_TRUNC`. -/
def FS.Create (fs : FS) (p : Path) : Except OSErr Unit × FS :=
  fs.openTrunc true p []

/-- `os.Remove(p)`: the parent directory must allow removals and a directory must be
empty. On failure nothing changes. -/
def FS.Remove (fs : FS) (p : Path) : Except OSErr Unit × FS :=
  if p ∈ fs.denied then (.error .permission, fs)
  else match fs.find p with
    | none => (.error .notExist, fs)
    | some n =>
      match fs.find p.dropLast with
      | some (.dir d) =>
        if !d.allowRemove then (.error .permission, fs)
        else if n.IsDir && !(children p fs.nodes).isEmpty then (.error .notEmpty, fs)
        else (.ok (), { fs with nodes := unbind p fs.nodes })
      | _ => (.error .permission, fs)

/-- Well-formed file system: no path is bound twice. -/
def FS.WF (fs : FS) : Prop := (fs.nodes.map Prod.fst).Nodup

instance (fs : FS) : Decidable fs.WF := by
  unfold FS.WF
  infer_instance

/-- The outcome of `os.WriteFile` at a path, from what the path and its parent name. -/
def writeOutcome (den : Bool) (node parent : Option Node) : Except OSErr Unit :=
  if den then .error .permission
  else match node with
    | some (.dir _) => .error .isDir
    | some (.file f) => if f.writable then .ok () else .error .permission
    | none =>
      match parent with
      | some (.dir d) => if d.allowCreate then .ok () else .error .permission
      | some (.file _) => .error .notDir
      | none => .error .notExist

/-! ## internal/sync/replacer.go -/

/-- The loop of `ReplaceUserFiles` / `ReplaceCharacterFiles` over the entries read at the
start: `pfx` is `"core_user_"` or `"core_char_"`, the last argument is `replacedCount`. -/
def replaceLoop (pfx : String) (profilePath : Path) (sourceFilename : String)
    (sourceContent : Bytes) : List DirEntry → FS → Nat → Except String Nat × FS
  | [], fs, replacedCount => (.ok replacedCount, fs)
  | entry :: rest, fs, replacedCount =>
    if entry.IsDir then
      replaceLoop pfx profilePath sourceFilename sourceContent rest fs replacedCount
    else
      let name := entry.Name
      if HasPrefix name pfx && HasSuffix name ".dat" then
        if name = sourceFilename then
          replaceLoop pfx profilePath sourceFilename sourceContent rest fs replacedCount
        else
          let filePath := Join profilePath name
          match fs.WriteFile filePath sourceContent with
          | (.error err, fs1) =>
            (.error ("failed to replace file " ++ name ++ ": " ++ err.Error), fs1)
          | (.ok _, fs1) =>
            replaceLoop pfx profilePath sourceFilename sourceContent rest fs1
              (replacedCount + 1)
      else
        replaceLoop pfx profilePath sourceFilename sourceContent rest fs replacedCount

/-- The common body of `ReplaceUserFiles` and `ReplaceCharacterFiles`, which differ in the
file name pattern and in two messages only; it returns `replacedCount` on success. -/
def replaceFiles (pfx readMsg noneMsg : String) (fs : FS) (profilePath sourceFile : Path) :
    Except String Nat × FS :=
  match fs.ReadFile sourceFile with
  | .error err => (.error (readMsg ++ err.Error), fs)
  | .ok sourceContent =>
    let sourceFilename := Base sourceFile
    match fs.ReadDir profilePath with
    | .error err => (.error ("failed to read profile directory: " ++ err.Error), fs)
    | .ok entries =>
      match replaceLoop pfx profilePath sourceFilename sourceContent entries fs 0 with
      | (.error e, fs1) => (.error e, fs1)
      | (.ok replacedCount, fs1) =>
        if replacedCount = 0 then (.error noneMsg, fs1) else (.ok replacedCount, fs1)

/-- Forget the count: the Go functions return an `error` only. -/
def dropCount (r : Except String Nat × FS) : Except String Unit × FS :=
  (r.1.map (fun _ => ()), r.2)

/-- `ReplaceUserFiles` of replacer.go. -/
def ReplaceUserFiles (fs : FS) (profilePath sourceUserFile : Path) : Except String Unit × FS :=
  dropCount (replaceFiles "core_user_" "failed to read source user file: "
    "no user files found to replace" fs profilePath sourceUserFile)

/-- `ReplaceCharacterFiles` of replacer.go. -/
def ReplaceCharacterFiles (fs : FS) (profilePath sourceCharFile : Path) :
    Except String Unit × FS :=
  dropCount (replaceFiles "core_char_" "failed to read source character file: "
    "no character files found to replace" fs profilePath sourceCharFile)

/-- The entries `replaceLoop` overwrites: regular files matching `<pfx>*.dat` other than
the source's own name. -/
def isTarget (pfx sourceFilename : String) (e : DirEntry) : Bool :=
  !e.IsDir && (HasPrefix e.Name pfx && HasSuffix e.Name ".dat") && decide (e.Name ≠ sourceFilename)

/-! ## internal/sync/replacer.go and validator.go: the pre-flight validator -/

/-- `ValidateProfilePath` of replacer.go. -/
def ValidateProfilePath (fs : FS) (profilePath : Path) : Except String Unit :=
  match fs.Stat profilePath with
  | .error err =>
    if err.IsNotExist then
      .error ("profile path does not exist: " ++ pathString profilePath)
    else .error ("failed to access profile path: " ++ err.Error)
  | .ok info =>
    if !info.IsDir then
      .error ("profile path is not a directory: " ++ pathString profilePath)
    else .ok ()

/-- `file.Read(buf)` on an opened file, for a buffer of `count` bytes: the bytes read, or
the error, where `none` stands for `io.EOF`. -/
def Node.Read (file : Node) (count : Nat) : Except (Option OSErr) Bytes :=
  match file with
  | .dir _ => .error (some .isDir)
  | .file f =>
    if !f.sound then .error (some .io)
    else if f.data.isEmpty then .error none
    else .ok (f.data.take count)

/-- `ValidateSourceFile` of replacer.go. -/
def ValidateSourceFile (fs : FS) (filePath : Path) : Except String Unit :=
  match fs.Stat filePath with
  | .error err =>
    if err.IsNotExist then .error ("source file does not exist: " ++ pathString filePath)
    else .error ("failed to access source file: " ++ err.Error)
  | .ok info =>
    if info.IsDir then
      .error ("source path is a directory, not a file: " ++ pathString filePath)
    else
      match fs.Open filePath with
      | .error err => .error ("failed to open source file: " ++ err.Error)
      | .ok file =>
        match file.Read 1 with
        | .error (some err) => .error ("failed to read source file: " ++ err.Error)
        | _ => .ok ()

/-- The marker file of `checkWritable`. -/
def probePath (dirPath : Path) : Path := Join dirPath ".write_test"

/-- `checkWritable` of validator.go: create the marker file, then remove it; the error of
the removal is dropped. -/
def checkWritable (fs : FS) (dirPath : Path) : Except String Unit × FS :=
  let testFile := probePath dirPath
  match fs.Create testFile with
  | (.error err, fs1) => (.error ("cannot write to directory: " ++ err.Error), fs1)
  | (.ok _, fs1) =>
    match fs1.Remove testFile with
    | (.error _, fs2) => (.ok (), fs2)
    | (.ok _, fs2) => (.ok (), fs2)

/-- `ValidateOperation` of validator.go. -/
def ValidateOperation (fs : FS) (profilePath sourceUserFile sourceCharFile : Path) :
    Except String Unit × FS :=
  match ValidateProfilePath fs profilePath with
  | .error err => (.error ("profile validation failed: " ++ err), fs)
  | .ok _ =>
    match ValidateSourceFile fs sourceUserFile with
    | .error err => (.error ("user file validation failed: " ++ err), fs)
    | .ok _ =>
      match ValidateSourceFile fs sourceCharFile with
      | .error err => (.error ("character file validation failed: " ++ err), fs)
      | .ok _ =>
        match checkWritable fs profilePath with
        | (.error err, fs1) => (.error ("profile directory is not writable: " ++ err), fs1)
        | (.ok _, fs1) => (.ok (), fs1)

/-! ## internal/backup/creator.go -/

/-- One member of a zip archive: its name, its storage method and its stored bytes. -/
structure ZipMember where
  Name : String
  Method : Nat
  stored : Bytes
  deriving DecidableEq, Repr

/-- The members of a zip archive, `zipReader.File`. -/
abbrev Archive := List ZipMember

/-- `zip.Deflate`. -/
def Deflate : Nat := 8

/-- `zip.OpenReader(path)`: open and read the file, then parse it; `parse` is the zip
format of the standard library and answers `none` on bytes that are no zip archive. -/
def OpenReader (parse : Bytes → Option Archive) (fs : FS) (p : Path) : Except String Archive :=
  match fs.ReadFile p with
  | .error err => .error err.Error
  | .ok bytes =>
    match parse bytes with
    | none => .error "zip: not a valid zip file"
    | some archive => .ok archive

/-- `VerifyBackup` of creator.go. -/
def VerifyBackup (parse : Bytes → Option Archive) (fs : FS) (backupPath : Path) :
    Except String Unit :=
  match fs.Stat backupPath with
  | .error err =>
    if err.IsNotExist then .error ("backup file does not exist: " ++ pathString backupPath)
    else .error ("failed to access backup file: " ++ err.Error)
  | .ok info =>
    if info.Size = 0 then .error ("backup file is empty: " ++ pathString backupPath)
    else
      match OpenReader parse fs backupPath with
      | .error err => .error ("backup file is not a valid zip: " ++ err)
      | .ok zipReader =>
        if zipReader.length = 0 then .error "backup zip file is empty"
        else .ok ()

/-- The entries of a directory in the order `filepath.Walk` visits them, each a regular
file or a subdirectory with its own entries. -/
inductive Tree where
  | nil : Tree
  | file (name : String) (f : FileNode) (rest : Tree) : Tree
  | dir (name : String) (d : DirNode) (sub : Tree) (rest : Tree) : Tree
  deriving DecidableEq, Repr

/-- What `filepath.Walk` finds at its root. -/
inductive WalkRoot where
  | missing (err : OSErr)
  | file (f : FileNode)
  | dir (d : DirNode) (entries : Tree)
  deriving DecidableEq, Repr

/-- The walk function of `CreateBackup` on one regular file whose path relative to the
root is `rel`: a header named by the relative path with method Deflate, then the copy of
the file into the archive. -/
def addFile (deflate : Bytes → Bytes) (rel : Path) (f : FileNode) (archive : Archive) :
    Except OSErr Unit × Archive :=
  let relPath := pathString rel
  let header : ZipMember := ⟨relPath, Deflate, []⟩
  if !f.readable then (.error .permission, archive ++ [header])
  else if !f.sound then (.error .io, archive ++ [header])
  else (.ok (), archive ++ [{ header with stored := deflate f.data }])

/-- `filepath.Walk` with the walk function of `CreateBackup` over the entries of the
directory whose path relative to the root is `rel`: directories are skipped and
descended into, a directory that cannot be listed or a file that cannot be copied stops
the walk with its error. -/
def walkEntries (deflate : Bytes → Bytes) (rel : Path) :
    Tree → Archive → Except OSErr Unit × Archive
  | .nil, archive => (.ok (), archive)
  | .file name f rest, archive =>
    match addFile deflate (rel ++ [name]) f archive with
    | (.error err, archive1) => (.error err, archive1)
    | (.ok _, archive1) => walkEntries deflate rel rest archive1
  | .dir name d sub rest, archive =>
    if !d.listable then (.error .permission, archive)
    else
      match walkEntries deflate (rel ++ [name]) sub archive with
      | (.error err, archive1) => (.error err, archive1)
      | (.ok _, archive1) => walkEntries deflate rel rest archive1

/-- `filepath.Walk(profilePath, fn)` from the root: `filepath.Rel` of the root to itself
is `"."`. -/
def walk (deflate : Bytes → Bytes) (root : WalkRoot) : Except OSErr Unit × Archive :=
  match root with
  | .missing err => (.error err, [])
  | .file f => addFile deflate ["."] f []
  | .dir d entries =>
    if !d.listable then (.error .permission, [])
    else walkEntries deflate [] entries []

/-- The local time `time.Now()`, by its calendar fields. -/
structure Time where
  Year : Nat
  Month : Nat
  Day : Nat
  Hour : Nat
  Minute : Nat
  Second : Nat
  deriving DecidableEq, Repr

/-- The decimal digits of `n`, padded with zeros to `width`. -/
def appendInt (n width : Nat) : String :=
  let ds := Nat.toDigits 10 n
  String.mk (List.replicate (width - ds.length) '0' ++ ds)

/-- `t.Format("20060102-1504")`. -/
def Time.Format (t : Time) : String :=
  appendInt t.Year 4 ++ appendInt t.Month 2 ++ appendInt t.Day 2 ++ "-" ++
    appendInt t.Hour 2 ++ appendInt t.Minute 2

/-- What `CreateBackup` meets outside the profile: the errors, if any, of creating the
backup directory, of creating the zip file and of closing the zip writer, the clock, and
the compressor of the standard library. -/
structure BackupEnv where
  mkdirAll : Option OSErr
  create : Option OSErr
  close : Option String
  now : Time
  deflate : Bytes → Bytes

/-- What `CreateBackup` returns, and the zip file it leaves: the deferred
`zipWriter.Close()` finalizes whatever was added, also when the walk failed. -/
structure BackupResult where
  result : Except String Path
  written : Option (Path × Archive)

/-- `CreateBackup` of creator.go, where `root` is what `profilePath` names, as the walk
finds it; the zip file is written outside of it. -/
def CreateBackup (env : BackupEnv) (root : WalkRoot) (profileName : String) : BackupResult :=
  let backupDir := "backup"
  match env.mkdirAll with
  | some err => ⟨.error ("failed to create backup directory: " ++ err.Error), none⟩
  | none =>
    let timestamp := env.now.Format
    let backupFilename := "settings_" ++ profileName ++ "_" ++ timestamp ++ ".zip"
    let backupPath := Join [backupDir] backupFilename
    match env.create with
    | some err => ⟨.error ("failed to create backup file: " ++ err.Error), none⟩
    | none =>
      match walk env.deflate root with
      | (.error err, archive) =>
        ⟨.error ("failed to create backup: " ++ err.Error), some (backupPath, archive)⟩
      | (.ok _, archive) =>
        match env.close with
        | some err =>
          ⟨.error ("failed to finalize backup: " ++ err), some (backupPath, archive)⟩
        | none => ⟨.ok backupPath, some (backupPath, archive)⟩

/-- The regular files of a directory tree, each with its path relative to the directory
and its bytes, in walk order. -/
def Tree.files (rel : Path) : Tree → List (Path × Bytes)
  | .nil => []
  | .file name f rest => (rel ++ [name], f.data) :: Tree.files rel rest
  | .dir name _ sub rest => Tree.files (rel ++ [name]) sub ++ Tree.files rel rest

/-! ## cmd/root.go -/

/-- `config.Config`. -/
structure Config where
  ProfilesDir : Path
  Profile : String
  UserID : String
  CharacterID : String
  deriving DecidableEq, Repr

/-- `profile.Profile`. -/
structure Profile where
  Name : String
  Path : Path
  deriving DecidableEq, Repr

/-- `profile.UserFile`. -/
structure UserFile where
  ID : String
  Name : String
  Path : Path
  deriving DecidableEq, Repr

/-- `profile.CharacterFile`. -/
structure CharacterFile where
  ID : String
  Name : String
  Path : Path
  deriving DecidableEq, Repr

/-- The functions `runSync` calls, each acting on the state `σ` of the world (file
system, terminal, clock): the prompts, the configuration store, and the five stages. -/
structure Env (σ : Type) where
  LoadConfig : σ → Except String Config × σ
  discoverProfilesDirectory : Path → σ → Except String Path × σ
  selectProfile : Path → String → σ → Except String Profile × σ
  ListUserFiles : Path → σ → Except String (List UserFile) × σ
  selectUserFile : List UserFile → String → σ → Except String UserFile × σ
  ListCharacterFiles : Path → σ → Except String (List CharacterFile) × σ
  selectCharacterFile : List CharacterFile → String → σ → Except String CharacterFile × σ
  confirmOperation : Profile → UserFile → CharacterFile → σ → Bool × σ
  ValidateOperation : Path → Path → Path → σ → Except String Unit × σ
  CreateBackup : Path → String → σ → Except String Path × σ
  VerifyBackup : Path → σ → Except String Unit × σ
  ReplaceUserFiles : Path → Path → σ → Except String Unit × σ
  ReplaceCharacterFiles : Path → Path → σ → Except String Unit × σ
  SaveConfig : Config → σ → Except String Unit × σ

/-- The calls `runSync` makes. -/
inductive Call where
  | LoadConfig
  | discoverProfilesDirectory
  | selectProfile
  | ListUserFiles
  | selectUserFile
  | ListCharacterFiles
  | selectCharacterFile
  | confirmOperation
  | ValidateOperation
  | CreateBackup
  | VerifyBackup
  | ReplaceUserFiles
  | ReplaceCharacterFiles
  | SaveConfig
  deriving DecidableEq, Repr

/-- One call of a run: which function, and whether it returned without error (for
`confirmOperation`: whether it returned `true`). -/
structure Event where
  call : Call
  ok : Bool
  deriving DecidableEq, Repr

/-- A run in progress: the world, the calls made so far and the lines printed so far. -/
structure Run (σ : Type) where
  world : σ
  trace : List Event
  output : List String

/-- `fmt.Printf` / `fmt.Fprintf(os.Stderr, ...)`. -/
def Run.print {σ : Type} (r : Run σ) (line : String) : Run σ :=
  { r with output := r.output ++ [line] }

/-- Call `f` on the world of the run: what it returned, and the run with the world it
left and the call recorded. -/
def Run.call {σ α : Type} (r : Run σ) (c : Call) (f : σ → Except String α × σ) :
    Except String α × Run σ :=
  ((f r.world).1,
    { r with world := (f r.world).2, trace := r.trace ++ [⟨c, (f r.world).1.toBool⟩] })

/-- `runSync`, step 9: save the configuration; a failure is a warning only. -/
def saveStep {σ : Type} (env : Env σ) (cfg : Config) (r : Run σ) : Nat × Run σ :=
  match r.call .SaveConfig (env.SaveConfig cfg) with
  | (.error err, r) =>
    (0, (r.print ("Warning: Failed to save configuration: " ++ err)).print
      "Synchronization completed successfully!")
  | (.ok _, r) => (0, r.print "Synchronization completed successfully!")

/-- `runSync`, step 8: replace the user files, then the character files. -/
def replaceStep {σ : Type} (env : Env σ) (profilesDir : Path) (selectedProfile : Profile)
    (selectedUserFile : UserFile) (selectedCharFile : CharacterFile) (backupPath : Path)
    (r : Run σ) : Nat × Run σ :=
  let r := r.print "Synchronizing user files..."
  match r.call .ReplaceUserFiles
    (env.ReplaceUserFiles selectedProfile.Path selectedUserFile.Path) with
  | (.error err, r) =>
    (1, (r.print ("Error: Failed to replace user files: " ++ err)).print
      ("You can restore from backup: " ++ pathString backupPath))
  | (.ok _, r) =>
    let r := r.print "Synchronizing character files..."
    match r.call .ReplaceCharacterFiles
      (env.ReplaceCharacterFiles selectedProfile.Path selectedCharFile.Path) with
    | (.error err, r) =>
      (1, (r.print ("Error: Failed to replace character files: " ++ err)).print
        ("You can restore from backup: " ++ pathString backupPath))
    | (.ok _, r) =>
      saveStep env ⟨profilesDir, selectedProfile.Name, selectedUserFile.ID,
        selectedCharFile.ID⟩ r

/-- `runSync`, step 7: create the backup and verify it. -/
def backupStep {σ : Type} (env : Env σ) (profilesDir : Path) (selectedProfile : Profile)
    (selectedUserFile : UserFile) (selectedCharFile : CharacterFile) (r : Run σ) :
    Nat × Run σ :=
  let r := r.print "Creating backup..."
  match r.call .CreateBackup (env.CreateBackup selectedProfile.Path selectedProfile.Name) with
  | (.error err, r) => (1, r.print ("Error: Failed to create backup: " ++ err))
  | (.ok backupPath, r) =>
    match r.call .VerifyBackup (env.VerifyBackup backupPath) with
    | (.error err, r) => (1, r.print ("Error: Backup verification failed: " ++ err))
    | (.ok _, r) =>
      let r := r.print ("Backup created successfully: " ++ pathString backupPath)
      replaceStep env profilesDir selectedProfile selectedUserFile selectedCharFile
        backupPath r

/-- `runSync`, step 6: validate the operation. -/
def validateStep {σ : Type} (env : Env σ) (profilesDir : Path) (selectedProfile : Profile)
    (selectedUserFile : UserFile) (selectedCharFile : CharacterFile) (r : Run σ) :
    Nat × Run σ :=
  match r.call .ValidateOperation (env.ValidateOperation selectedProfile.Path
    selectedUserFile.Path selectedCharFile.Path) with
  | (.error err, r) => (1, r.print ("Error: Validation failed: " ++ err))
  | (.ok _, r) => backupStep env profilesDir selectedProfile selectedUserFile selectedCharFile r

/-- `runSync`, step 5: show the summary and ask for confirmation. -/
def confirmStep {σ : Type} (env : Env σ) (profilesDir : Path) (selectedProfile : Profile)
    (selectedUserFile : UserFile) (selectedCharFile : CharacterFile) (r : Run σ) :
    Nat × Run σ :=
  let confirmed := env.confirmOperation selectedProfile selectedUserFile selectedCharFile
    r.world
  let r : Run σ := { r with world := confirmed.2,
                            trace := r.trace ++ [⟨.confirmOperation, confirmed.1⟩] }
  if !confirmed.1 then (0, r.print "Operation cancelled.")
  else validateStep env profilesDir selectedProfile selectedUserFile selectedCharFile r

/-- `runSync`, step 4: list the character files and select one. -/
def characterStep {σ : Type} (env : Env σ) (cfg : Config) (profilesDir : Path)
    (selectedProfile : Profile) (selectedUserFile : UserFile) (r : Run σ) : Nat × Run σ :=
  match r.call .ListCharacterFiles (env.ListCharacterFiles selectedProfile.Path) with
  | (.error err, r) => (1, r.print ("Error: Failed to list character files: " ++ err))
  | (.ok charFiles, r) =>
    if charFiles.length = 0 then (1, r.print "Error: No character files found in profile")
    else
      match r.call .selectCharacterFile
        (env.selectCharacterFile charFiles cfg.CharacterID) with
      | (.error err, r) => (1, r.print ("Error: " ++ err))
      | (.ok selectedCharFile, r) =>
        confirmStep env profilesDir selectedProfile selectedUserFile selectedCharFile r

/-- `runSync`, step 3: list the user files and select one. -/
def userStep {σ : Type} (env : Env σ) (cfg : Config) (profilesDir : Path)
    (selectedProfile : Profile) (r : Run σ) : Nat × Run σ :=
  match r.call .ListUserFiles (env.ListUserFiles selectedProfile.Path) with
  | (.error err, r) => (1, r.print ("Error: Failed to list user files: " ++ err))
  | (.ok userFiles, r) =>
    if userFiles.length = 0 then (1, r.print "Error: No user files found in profile")
    else
      match r.call .selectUserFile (env.selectUserFile userFiles cfg.UserID) with
      | (.error err, r) => (1, r.print ("Error: " ++ err))
      | (.ok selectedUserFile, r) =>
        characterStep env cfg profilesDir selectedProfile selectedUserFile r

/-- `runSync`, steps 1 and 2: discover the profiles directory and select a profile. -/
def profileStep {σ : Type} (env : Env σ) (cfg : Config) (r : Run σ) : Nat × Run σ :=
  match r.call .discoverProfilesDirectory (env.discoverProfilesDirectory cfg.ProfilesDir) with
  | (.error err, r) => (1, r.print ("Error: " ++ err))
  | (.ok profilesDir, r) =>
    match r.call .selectProfile (env.selectProfile profilesDir cfg.Profile) with
    | (.error err, r) => (1, r.print ("Error: " ++ err))
    | (.ok selectedProfile, r) => userStep env cfg profilesDir selectedProfile r

/-- `runSync` of root.go: the exit status of the process (`os.Exit(1)` on a failure, `0`
when the user cancels or the run completes) and the run. A configuration that cannot be
loaded is replaced by the empty one. -/
def runSync {σ : Type} (env : Env σ) (w : σ) : Nat × Run σ :=
  match (⟨w, [], []⟩ : Run σ).call .LoadConfig env.LoadConfig with
  | (.error err, r) =>
    profileStep env ⟨[], "", "", ""⟩ (r.print ("Warning: Failed to load config: " ++ err))
  | (.ok cfg, r) => profileStep env cfg r

/-- A trace that follows the order `cs` of calls and goes past a call only when that call
returned without error. -/
def chain : List Call → List Event → Prop
  | _, [] => True
  | [], _ :: _ => False
  | c :: cs, e :: es => e.call = c ∧ (es = [] ∨ (e.ok = true ∧ chain cs es))

/-- The calls of `runSync` after `LoadConfig`, in program order. -/
def callOrder : List Call :=
  [.discoverProfilesDirectory, .selectProfile, .ListUserFiles, .selectUserFile,
    .ListCharacterFiles, .selectCharacterFile, .confirmOperation, .ValidateOperation,
    .CreateBackup, .VerifyBackup, .ReplaceUserFiles, .ReplaceCharacterFiles, .SaveConfig]

/-- A world in which every collaborator of `runSync` succeeds. -/
def envAllOk : Env Unit where
  LoadConfig := fun w => (.ok ⟨["profiles"], "Default", "1", "2"⟩, w)
  discoverProfilesDirectory := fun dir w => (.ok dir, w)
  selectProfile := fun dir name w => (.ok ⟨name, dir ++ ["settings_" ++ name]⟩, w)
  ListUserFiles := fun p w => (.ok [⟨"1", "", p ++ ["core_user_1.dat"]⟩], w)
  selectUserFile := fun l _ w => (.ok (l.headD ⟨"", "", []⟩), w)
  ListCharacterFiles := fun p w => (.ok [⟨"2", "", p ++ ["core_char_2.dat"]⟩], w)
  selectCharacterFile := fun l _ w => (.ok (l.headD ⟨"", "", []⟩), w)
  confirmOperation := fun _ _ _ w => (true, w)
  ValidateOperation := fun _ _ _ w => (.ok (), w)
  CreateBackup := fun _ name w => (.ok ["backup", "settings_" ++ name ++ "_20240101-0000.zip"], w)
  VerifyBackup := fun _ w => (.ok (), w)
  ReplaceUserFiles := fun _ _ w => (.ok (), w)
  ReplaceCharacterFiles := fun _ _ w => (.ok (), w)
  SaveConfig := fun _ w => (.ok (), w)

/-! ## internal/profile/discover.go and selector.go -/

/-- `ValidateProfilesDirectory` of discover.go. -/
def ValidateProfilesDirectory (fs : FS) (path : Path) : Except String Unit :=
  match fs.Stat path with
  | .error err =>
    if err.IsNotExist then .error ("directory does not exist: " ++ pathString path)
    else .error ("failed to access directory: " ++ err.Error)
  | .ok info =>
    if !info.IsDir then .error ("path is not a directory: " ++ pathString path)
    else .ok ()

/-- `TryExtractUserName` of parser.go: the name and the error it returns. The file is
read; the loop over the lines of its content assigns nothing (the body of its only test
is empty), and the name returned is the empty string in every case. -/
def TryExtractUserName (fs : FS) (filePath : Path) : String × Option String :=
  match fs.ReadFile filePath with
  | .error err => ("", some ("failed to read file: " ++ err.Error))
  | .ok _ => ("", none)

/-- `TryExtractCharacterName` of parser.go: the name and the error it returns. -/
def TryExtractCharacterName (fs : FS) (filePath : Path) : String × Option String :=
  match fs.ReadFile filePath with
  | .error err => ("", some ("failed to read file: " ++ err.Error))
  | .ok _ => ("", none)

/-- The loop of `ListUserFiles` / `ListCharacterFiles` over the entries of the directory:
`pfx` is `"core_user_"` or `"core_char_"`, `extract` the id extractor, `tryName` the name
extractor, whose error is dropped, and `mk` builds the record that is appended. -/
def listLoop {ρ : Type} (pfx : String) (extract : String → Except String String)
    (tryName : FS → Path → String × Option String) (mk : String → String → Path → ρ)
    (fs : FS) (profilePath : Path) : List DirEntry → List ρ
  | [] => []
  | entry :: rest =>
    if entry.IsDir then listLoop pfx extract tryName mk fs profilePath rest
    else
      let name := entry.Name
      if HasPrefix name pfx && HasSuffix name ".dat" then
        match extract name with
        | .error _ => listLoop pfx extract tryName mk fs profilePath rest
        | .ok id =>
          let filePath := Join profilePath name
          let userName := (tryName fs filePath).1
          mk id userName filePath :: listLoop pfx extract tryName mk fs profilePath rest
      else listLoop pfx extract tryName mk fs profilePath rest

/-- `ListUserFiles` of selector.go. -/
def ListUserFiles (fs : FS) (profilePath : Path) : Except String (List UserFile) :=
  match ValidateProfilesDirectory fs profilePath with
  | .error err => .error err
  | .ok _ =>
    match fs.ReadDir profilePath with
    | .error err => .error ("failed to read profile directory: " ++ err.Error)
    | .ok entries =>
      .ok (listLoop "core_user_" ExtractUserID TryExtractUserName UserFile.mk fs profilePath
        entries)

/-- `ListCharacterFiles` of selector.go. -/
def ListCharacterFiles (fs : FS) (profilePath : Path) : Except String (List CharacterFile) :=
  match ValidateProfilesDirectory fs profilePath with
  | .error err => .error err
  | .ok _ =>
    match fs.ReadDir profilePath with
    | .error err => .error ("failed to read profile directory: " ++ err.Error)
    | .ok entries =>
      .ok (listLoop "core_char_" ExtractCharacterID TryExtractCharacterName CharacterFile.mk
        fs profilePath entries)

/-! ## The two kinds of configuration file -/

/-- The two kinds of configuration file of the specification. -/
inductive Kind where
  | user
  | character
  deriving DecidableEq, Repr

/-- The file name pattern literal of a kind. -/
def Kind.pattern : Kind → String
  | .user => "core_user_"
  | .character => "core_char_"

/-- The message of a replacer that found nothing to overwrite. -/
def Kind.noneMsg : Kind → String
  | .user => "no user files found to replace"
  | .character => "no character files found to replace"

/-- The text that starts the message of a replacer that could not read its source. -/
def Kind.readMsg : Kind → String
  | .user => "failed to read source user file: "
  | .character => "failed to read source character file: "

/-- `parseIdentity(filename, kind)` of the specification: `ExtractUserID` or
`ExtractCharacterID`. -/
def parseIdentity (filename : String) : Kind → Except String String
  | .user => ExtractUserID filename
  | .character => ExtractCharacterID filename

/-- `replace(profilePath, sourceFilePath, kind)` of the specification: `ReplaceUserFiles`
or `ReplaceCharacterFiles`. -/
def replace (k : Kind) (fs : FS) (profilePath sourceFile : Path) : Except String Unit × FS :=
  match k with
  | .user => ReplaceUserFiles fs profilePath sourceFile
  | .character => ReplaceCharacterFiles fs profilePath sourceFile

/-- The `replacedCount` a replacer of kind `k` reaches, or its error. -/
def replacedCount (k : Kind) (fs : FS) (profilePath sourceFile : Path) : Except String Nat :=
  (replaceFiles k.pattern k.readMsg k.noneMsg fs profilePath sourceFile).1

/-- The calendar minute a time lies in: what `Format("20060102-1504")` prints of it. -/
def Time.minute (t : Time) : Nat × Nat × Nat × Nat × Nat :=
  (t.Year, t.Month, t.Day, t.Hour, t.Minute)

/-- The fields of a time are those of a calendar date and a time of day. -/
def Time.valid (t : Time) : Prop :=
  t.Month ≤ 12 ∧ t.Day ≤ 31 ∧ t.Hour ≤ 23 ∧ t.Minute ≤ 59

instance (t : Time) : Decidable t.valid := by
  unfold Time.valid
  infer_instance

/-- The number a list of decimal digits writes. -/
def digitsValue (l : List Char) : Nat :=
  l.foldl (fun a c => 10 * a + (c.toNat - 48)) 0

/-- The civil date (year, month, day) of the day `z` days after 1970-01-01, as the `time`
package computes it for the proleptic Gregorian calendar. -/
def civilFromDays (z : Nat) : Nat × Nat × Nat :=
  let z := z + 719468
  let era := z / 146097
  let doe := z % 146097
  let yoe := (doe - doe / 1460 + doe / 36524 - doe / 146096) / 365
  let y := yoe + era * 400
  let doy := doe - (365 * yoe + yoe / 4 - yoe / 100)
  let mp := (5 * doy + 2) / 153
  let d := doy - (153 * mp + 2) / 5 + 1
  let m := if mp < 10 then mp + 3 else mp - 9
  (if m ≤ 2 then y + 1 else y, m, d)

/-- The time `time.Now()` shows at the instant `unix` (seconds since 1970-01-01 00:00:00
UTC) in a location that is `offset unix` seconds east of UTC at that instant. -/
def localTime (offset : Nat → Nat) (unix : Nat) : Time :=
  let s := unix + offset unix
  let date := civilFromDays (s / 86400)
  let rem := s % 86400
  ⟨date.1, date.2.1, date.2.2, rem / 3600, rem % 3600 / 60, rem % 60⟩

/-- The offset of the location Europe/Berlin at the instants of the year 2024: summer
time, two hours east of UTC, from 31 March 01:00 UTC to 27 October 01:00 UTC, and one
hour otherwise. -/
def europeBerlin2024 (unix : Nat) : Nat :=
  if 1711846800 ≤ unix ∧ unix < 1729990800 then 7200 else 3600

/-! ## Examples -/

/-- A plain readable and writable file. -/
def plainFile (data : Bytes) : Node := .file ⟨data, true, true, true⟩

/-- A directory without restrictions. -/
def plainDir : Node := .dir ⟨true, true, true, 4096⟩

/-- The profile of the specification's example: three user files. -/
def fsThreeUsers : FS :=
  { nodes := [(["p"], plainDir),
      (["p", "core_user_1.dat"], plainFile [1]),
      (["p", "core_user_2.dat"], plainFile [2, 2]),
      (["p", "core_user_3.dat"], plainFile [3, 3, 3])],
    denied := [] }

/-- A profile in which one file matches `core_user_*.dat` without being a name the
identity parser accepts. -/
def fsStrayUser : FS :=
  { nodes := [(["p"], plainDir),
      (["p", "core_user_2.dat"], plainFile [2, 2]),
      (["p", "core_user_abc.dat"], plainFile [7])],
    denied := [] }

/-- A profile whose only user file accepted by the identity parser is the chosen source. -/
def fsOnlySource : FS :=
  { nodes := [(["p"], plainDir),
      (["p", "core_char_9.dat"], plainFile [9]),
      (["p", "core_user_5.dat"], plainFile [5]),
      (["p", "core_user_.dat"], plainFile [])],
    denied := [] }

/-- The three-user profile after `core_user_2.dat` was spread over the others. -/
def fsThreeUsersDone : FS :=
  { nodes := [(["p"], plainDir),
      (["p", "core_user_1.dat"], plainFile [2, 2]),
      (["p", "core_user_2.dat"], plainFile [2, 2]),
      (["p", "core_user_3.dat"], plainFile [2, 2])],
    denied := [] }

/-- The three-user profile with a read-only `core_user_2.dat`. -/
def fsReadOnlySecond : FS :=
  { nodes := [(["p"], plainDir),
      (["p", "core_user_0.dat"], plainFile [0]),
      (["p", "core_user_1.dat"], plainFile [1]),
      (["p", "core_user_2.dat"], .file ⟨[2, 2], true, false, true⟩),
      (["p", "core_user_3.dat"], plainFile [3, 3, 3])],
    denied := [] }

/-- A source user file and a source character file in a profile directory `dir`. -/
def fsProfile (dir : Node) (extra : List (Path × Node)) : FS :=
  { nodes := [(["p"], dir),
      (["p", "core_user_1.dat"], plainFile [1]),
      (["p", "core_char_2.dat"], plainFile [2])] ++ extra,
    denied := [] }

/-- A directory that accepts new entries and refuses to remove any. -/
def appendOnlyDir : Node := .dir ⟨true, true, false, 4096⟩

/-- A directory that accepts no change of its entries. -/
def readOnlyDir : Node := .dir ⟨true, false, false, 4096⟩

/-- The number of regular files of a directory tree, at any depth. -/
def Tree.fileCount : Tree → Nat
  | .nil => 0
  | .file _ _ rest => 1 + Tree.fileCount rest
  | .dir _ _ sub rest => Tree.fileCount sub + Tree.fileCount rest

/-- A file system with an empty file where a backup should be. -/
def fsEmptyBackup : FS :=
  { nodes := [(["backup"], plainDir), (["backup", "a.zip"], plainFile [])], denied := [] }

/-- A profile tree with files at three depths and an empty directory. -/
def exampleTree : Tree :=
  .dir "cache" ⟨true, true, true, 4096⟩
    (.dir "deep" ⟨true, true, true, 4096⟩ (.file "c.dat" ⟨[3], true, true, true⟩ .nil)
      (.file "b.dat" ⟨[2, 2], true, true, true⟩ .nil))
    (.file "core_user_1.dat" ⟨[1], true, true, true⟩
      (.dir "empty" ⟨true, true, true, 4096⟩ .nil .nil))

/-- An environment in which nothing fails and the compressor stores bytes as they are. -/
def exampleBackupEnv : BackupEnv :=
  { mkdirAll := none, create := none, close := none,
    now := ⟨2024, 3, 9, 7, 5, 59⟩, deflate := fun b => b }

/-- A profile with a subdirectory named like a user file, a user file that cannot be
read, a name the identity parser rejects, a character file and a file of no kind. -/
def fsMixed : FS :=
  { nodes := [(["p"], plainDir),
      (["p", "core_user_7.dat"], plainDir),
      (["p", "core_user_2.dat"], .file ⟨[2], false, true, true⟩),
      (["p", "core_user_abc.dat"], plainFile [7]),
      (["p", "core_char_9.dat"], plainFile [9]),
      (["p", "notes.txt"], plainFile []),
      (["p", "core_user_001.dat"], plainFile [1])],
    denied := [] }

/-- A profile with two user files and two character files. -/
def fsTwoAndTwo : FS :=
  { nodes := [(["p"], plainDir),
      (["p", "core_user_1.dat"], plainFile [1]),
      (["p", "core_user_2.dat"], plainFile [2, 2]),
      (["p", "core_char_3.dat"], plainFile [3]),
      (["p", "core_char_4.dat"], plainFile [4, 4])],
    denied := [] }

/-- The profile `fsTwoAndTwo` after `core_user_1.dat` was spread over the user files. -/
def fsTwoAndTwoUsers : FS :=
  { nodes := [(["p"], plainDir),
      (["p", "core_user_1.dat"], plainFile [1]),
      (["p", "core_user_2.dat"], plainFile [1]),
      (["p", "core_char_3.dat"], plainFile [3]),
      (["p", "core_char_4.dat"], plainFile [4, 4])],
    denied := [] }

/-- The profile `fsTwoAndTwoUsers` after `core_char_4.dat` was spread over the character
files. -/
def fsTwoAndTwoDone : FS :=
  { nodes := [(["p"], plainDir),
      (["p", "core_user_1.dat"], plainFile [1]),
      (["p", "core_user_2.dat"], plainFile [1]),
      (["p", "core_char_3.dat"], plainFile [4, 4]),
      (["p", "core_char_4.dat"], plainFile [4, 4])],
    denied := [] }

/-! ## The identity parser -/

theorem dropLiteral_append (l r : List Char) : dropLiteral l (l ++ r) = some r := by
  induction l with
  | nil => rfl
  | cons a l ih => simp [dropLiteral, ih]

theorem dropLiteral_eq_some {l s r : List Char} (h : dropLiteral l s = some r) : s = l ++ r := by
  induction l generalizing s with
  | nil =>
    simp only [dropLiteral, Option.some.injEq] at h
    simp [h]
  | cons a l ih =>
    cases s with
    | nil => simp [dropLiteral] at h
    | cons c cs =>
      by_cases hac : a = c
      · subst hac
        simp only [dropLiteral, if_true] at h
        rw [ih h]; rfl
      · simp [dropLiteral, hac] at h

/-- The shape of a text on which `FindStringSubmatch` answers: literal, digits, `.dat`. -/
theorem findStringSubmatch_shape {lit s : String} {ms : List String}
    (h : FindStringSubmatch lit s = ms) (hne : ms ≠ []) :
    ∃ digits : List Char, digits ≠ [] ∧ (∀ c ∈ digits, c.isDigit = true) ∧
      s.toList = lit.toList ++ digits ++ ".dat".toList ∧ ms = [s, String.mk digits] := by
  unfold FindStringSubmatch at h
  split at h
  · exact absurd h.symm hne
  · rename_i rest hrest
    simp only at h
    split at h
    · rename_i hc
      refine ⟨rest.takeWhile Char.isDigit, hc.1, ?_, ?_, h.symm⟩
      · intro c hc'
        exact (List.mem_takeWhile_imp hc')
      · have h1 := dropLiteral_eq_some hrest
        rw [h1, List.append_assoc, ← hc.2, List.takeWhile_append_dropWhile]
    · exact absurd h.symm hne

theorem findStringSubmatch_digits (lit : String) (d : String) (hne : d.toList ≠ [])
    (hd : ∀ c ∈ d.toList, c.isDigit = true) :
    FindStringSubmatch lit (lit ++ d ++ ".dat") = [lit ++ d ++ ".dat", d] := by
  have htw : (d.toList ++ ".dat".toList).takeWhile Char.isDigit = d.toList := by
    rw [List.takeWhile_append_of_pos hd]
    simp only [List.append_right_eq_self]
    decide
  have hdw : (d.toList ++ ".dat".toList).dropWhile Char.isDigit = ".dat".toList := by
    rw [List.dropWhile_append_of_pos hd]
    decide
  unfold FindStringSubmatch
  have hl : (lit ++ d ++ ".dat").toList = lit.toList ++ (d.toList ++ ".dat".toList) := by
    simp [String.toList, String.data_append]
  rw [hl, dropLiteral_append]
  simp only [htw, hdw]
  have hne2 : ¬ d.data = [] := hne
  simp [hne2]

/-! ## The store -/

theorem lookup_store (p q : Path) (n : Node) (l : List (Path × Node)) :
    lookup q (store p n l) = if q = p then some n else lookup q l := by
  induction l with
  | nil =>
    by_cases h : q = p
    · simp [store, lookup, h]
    · have h2 : ¬ p = q := fun e => h e.symm
      simp [store, lookup, h, h2]
  | cons a l ih =>
    obtain ⟨r, m⟩ := a
    by_cases hr : r = p
    · subst hr
      by_cases h : q = r
      · subst h; simp [store, lookup]
      · have h2 : ¬ r = q := fun e => h e.symm
        simp [store, lookup, h, h2]
    · by_cases h : q = p
      · subst h
        by_cases hrq : r = q
        · exact absurd hrq hr
        · simp [store, lookup, hr, ih]
      · by_cases hrq : r = q
        · subst hrq
          simp [store, lookup, hr]
        · simp [store, lookup, hr, hrq, ih, h]

theorem lookup_unbind (p q : Path) (l : List (Path × Node)) :
    lookup q (unbind p l) = if q = p then none else lookup q l := by
  induction l with
  | nil => simp [unbind, lookup]
  | cons a l ih =>
    obtain ⟨r, m⟩ := a
    unfold unbind at ih ⊢
    by_cases hr : r = p
    · subst hr
      by_cases h : q = r
      · subst h; simpa [lookup] using ih
      · have h2 : ¬ r = q := fun e => h e.symm
        simpa [lookup, h, h2] using ih
    · by_cases hrq : r = q
      · subst hrq
        simp [lookup, hr, List.filter_cons]
      · have ih2 := ih
        simp only [ne_eq, decide_not] at ih2
        simp [lookup, hr, hrq, List.filter_cons, ih2]

/-- What `openTrunc` does to the file system, in every case: the unreachable paths and
every other path are as before, a failed call changes nothing, and after a successful
call the path holds exactly `data`. -/
theorem openTrunc_spec (fs : FS) (rd : Bool) (p : Path) (data : Bytes) :
    (fs.openTrunc rd p data).2.denied = fs.denied ∧
    (∀ q, q ≠ p → (fs.openTrunc rd p data).2.find q = fs.find q) ∧
    (∀ e, (fs.openTrunc rd p data).1 = .error e → (fs.openTrunc rd p data).2 = fs) ∧
    ((fs.openTrunc rd p data).1 = .ok () → (fs.openTrunc rd p data).2.content p = some data) := by
  unfold FS.openTrunc
  split
  · simp
  · split
    · simp
    · split
      · refine ⟨rfl, ?_, ?_, ?_⟩
        · intro q hq; simp [FS.find, lookup_store, hq]
        · intro e h; simp at h
        · intro _; simp [FS.content, FS.find, lookup_store]
      · simp
    · split
      · split
        · refine ⟨rfl, ?_, ?_, ?_⟩
          · intro q hq; simp [FS.find, lookup_store, hq]
          · intro e h; simp at h
          · intro _; simp [FS.content, FS.find, lookup_store]
        · simp
      · simp
      · simp

/-- `openTrunc_spec` for `os.WriteFile`. -/
theorem writeFile_spec (fs : FS) (p : Path) (data : Bytes) :
    (fs.WriteFile p data).2.denied = fs.denied ∧
    (∀ q, q ≠ p → (fs.WriteFile p data).2.find q = fs.find q) ∧
    (∀ e, (fs.WriteFile p data).1 = .error e → (fs.WriteFile p data).2 = fs) ∧
    ((fs.WriteFile p data).1 = .ok () → (fs.WriteFile p data).2.content p = some data) :=
  openTrunc_spec fs false p data

/-! ## The replacer -/

theorem replaceLoop_nil (pfx : String) (prof : Path) (src : String) (data : Bytes) (fs : FS)
    (c : Nat) : replaceLoop pfx prof src data [] fs c = (.ok c, fs) := rfl

/-- One turn of the loop, by whether the entry is one the loop overwrites. -/
theorem replaceLoop_cons (pfx : String) (prof : Path) (src : String) (data : Bytes)
    (e : DirEntry) (rest : List DirEntry) (fs : FS) (c : Nat) :
    replaceLoop pfx prof src data (e :: rest) fs c =
      if isTarget pfx src e = true then
        match fs.WriteFile (Join prof e.Name) data with
        | (.error err, fs1) => (.error ("failed to replace file " ++ e.Name ++ ": " ++ err.Error), fs1)
        | (.ok _, fs1) => replaceLoop pfx prof src data rest fs1 (c + 1)
      else replaceLoop pfx prof src data rest fs c := by
  rw [replaceLoop]
  unfold isTarget
  cases hd : e.IsDir <;> cases hp : HasPrefix e.Name pfx <;>
    cases hm : HasSuffix e.Name ".dat" <;> by_cases hs : e.Name = src <;>
    simp [hs, hd, hp, hm]

/-- The loop only looks at the entries it overwrites. -/
theorem replaceLoop_filter (pfx : String) (prof : Path) (src : String) (data : Bytes)
    (es : List DirEntry) (fs : FS) (c : Nat) :
    replaceLoop pfx prof src data es fs c =
      replaceLoop pfx prof src data (es.filter (isTarget pfx src)) fs c := by
  induction es generalizing fs c with
  | nil => rfl
  | cons e rest ih =>
    by_cases ht : isTarget pfx src e = true
    · rw [List.filter_cons_of_pos ht, replaceLoop_cons, replaceLoop_cons, if_pos ht, if_pos ht]
      rcases hw : fs.WriteFile (Join prof e.Name) data with ⟨r, fs1⟩
      cases r with
      | error err => rfl
      | ok u => exact ih fs1 (c + 1)
    · rw [List.filter_cons_of_neg ht, replaceLoop_cons, if_neg ht]
      exact ih fs c

/-- Whatever the outcome, the loop touches only the paths of the entries it overwrites. -/
theorem replaceLoop_frame (pfx : String) (prof : Path) (src : String) (data : Bytes)
    (es : List DirEntry) (fs : FS) (c : Nat) :
    (replaceLoop pfx prof src data es fs c).2.denied = fs.denied ∧
    ∀ q, (∀ e ∈ es, isTarget pfx src e = true → q ≠ Join prof e.Name) →
      (replaceLoop pfx prof src data es fs c).2.find q = fs.find q := by
  induction es generalizing fs c with
  | nil => exact ⟨rfl, fun _ _ => rfl⟩
  | cons e rest ih =>
    rw [replaceLoop_cons]
    by_cases ht : isTarget pfx src e = true
    · rw [if_pos ht]
      have hspec := writeFile_spec fs (Join prof e.Name) data
      rcases hw : fs.WriteFile (Join prof e.Name) data with ⟨r, fs1⟩
      rw [hw] at hspec
      cases r with
      | error err =>
        exact ⟨hspec.1, fun q hq => hspec.2.1 q (hq e (List.mem_cons_self _ _) ht)⟩
      | ok u =>
        obtain ⟨ih1, ih2⟩ := ih fs1 (c + 1)
        refine ⟨ih1.trans hspec.1, fun q hq => ?_⟩
        have h1 := ih2 q (fun x hx hxt => hq x (List.mem_cons_of_mem _ hx) hxt)
        exact h1.trans (hspec.2.1 q (hq e (List.mem_cons_self _ _) ht))
    · rw [if_neg ht]
      obtain ⟨ih1, ih2⟩ := ih fs c
      exact ⟨ih1, fun q hq => ih2 q (fun x hx hxt => hq x (List.mem_cons_of_mem _ hx) hxt)⟩

/-- A loop that ends without error has counted and overwritten every target. -/
theorem replaceLoop_ok (pfx : String) (prof : Path) (src : String) (data : Bytes)
    (es : List DirEntry) (fs : FS) (c n : Nat) (fs2 : FS)
    (h : replaceLoop pfx prof src data es fs c = (.ok n, fs2)) :
    n = c + (es.filter (isTarget pfx src)).length ∧
    ∀ e ∈ es, isTarget pfx src e = true → fs2.content (Join prof e.Name) = some data := by
  induction es generalizing fs c with
  | nil =>
    simp only [replaceLoop_nil, Prod.mk.injEq, Except.ok.injEq] at h
    exact ⟨by simp [h.1], fun e he => absurd he (List.not_mem_nil e)⟩
  | cons e rest ih =>
    rw [replaceLoop_cons] at h
    by_cases ht : isTarget pfx src e = true
    · rw [if_pos ht] at h
      have hspec := writeFile_spec fs (Join prof e.Name) data
      rcases hw : fs.WriteFile (Join prof e.Name) data with ⟨r, fs1⟩
      rw [hw] at hspec h
      cases r with
      | error err => simp at h
      | ok u =>
        simp only at h
        obtain ⟨ihn, ihc⟩ := ih fs1 (c + 1) h
        refine ⟨?_, ?_⟩
        · rw [ihn, List.filter_cons_of_pos ht, List.length_cons]; omega
        · intro x hx hxt
          rcases List.mem_cons.1 hx with hxe | hxr
          · subst hxe
            by_cases hex : ∃ y ∈ rest, isTarget pfx src y = true ∧ Join prof x.Name = Join prof y.Name
            · obtain ⟨y, hy, hyt, hxy⟩ := hex
              rw [hxy]; exact ihc y hy hyt
            · have hfr := (replaceLoop_frame pfx prof src data rest fs1 (c + 1)).2
                (Join prof x.Name) (fun y hy hyt hxy => hex ⟨y, hy, hyt, hxy⟩)
              rw [h] at hfr
              have hc1 := hspec.2.2.2 rfl
              unfold FS.content at hc1 ⊢
              rw [hfr]; exact hc1
          · exact ihc x hxr hxt
    · rw [if_neg ht] at h
      obtain ⟨ihn, ihc⟩ := ih fs c h
      refine ⟨by rw [ihn, List.filter_cons_of_neg ht], ?_⟩
      intro x hx hxt
      rcases List.mem_cons.1 hx with hxe | hxr
      · subst hxe; exact absurd hxt ht
      · exact ihc x hxr hxt

theorem writeFile_outcome (fs : FS) (p : Path) (data : Bytes) :
    (fs.WriteFile p data).1 =
      writeOutcome (decide (p ∈ fs.denied)) (fs.find p) (fs.find p.dropLast) := by
  unfold FS.WriteFile FS.openTrunc writeOutcome
  by_cases hd : p ∈ fs.denied
  · simp [hd]
  · simp only [hd, if_false, decide_False, Bool.false_eq_true]
    rcases hn : fs.find p with _ | n
    · simp only
      rcases hp : fs.find p.dropLast with _ | m
      · rfl
      · cases m with
        | file g => rfl
        | dir d => cases hc : d.allowCreate <;> simp [hc]
    · cases n with
      | file f => cases hwr : f.writable <;> simp [hwr]
      | dir d => rfl

/-- After a successful `os.WriteFile` the path names a writable regular file. -/
theorem writeFile_ok_node (fs : FS) (p : Path) (data : Bytes)
    (h : (fs.WriteFile p data).1 = .ok ()) :
    p ∉ fs.denied ∧ ∃ f : FileNode, (fs.WriteFile p data).2.find p = some (.file f) ∧
      f.writable = true := by
  unfold FS.WriteFile FS.openTrunc at h ⊢
  by_cases hd : p ∈ fs.denied
  · simp [hd] at h
  · refine ⟨hd, ?_⟩
    simp only [hd, if_false] at h ⊢
    rcases hn : fs.find p with _ | n
    · rw [hn] at h
      simp only at h ⊢
      rcases hp : fs.find p.dropLast with _ | m
      · rw [hp] at h; simp at h
      · rw [hp] at h
        cases m with
        | file g => simp at h
        | dir d =>
          cases hc : d.allowCreate
          · simp [hc] at h
          · simp [hc, FS.find, lookup_store]
    · rw [hn] at h
      cases n with
      | dir d => simp at h
      | file f =>
        cases hwr : f.writable
        · simp [hwr] at h
        · simp [hwr, FS.find, lookup_store]

/-- A successful write elsewhere does not change whether a later write succeeds. -/
theorem writeFile_outcome_stable (fs : FS) (q p : Path) (d d2 : Bytes)
    (hq : (fs.WriteFile q d).1 = .ok ()) (hne : q ≠ p.dropLast) :
    ((fs.WriteFile q d).2.WriteFile p d2).1 = (fs.WriteFile p d2).1 := by
  have hspec := writeFile_spec fs q d
  obtain ⟨hnd, f, hf, hfw⟩ := writeFile_ok_node fs q d hq
  rw [writeFile_outcome, writeFile_outcome, hspec.1, hspec.2.1 _ (Ne.symm hne)]
  by_cases hpq : p = q
  · subst hpq
    rw [hf]
    have h0 := hq
    rw [writeFile_outcome] at h0
    rw [h0]
    simp [writeOutcome, hnd, hfw]
  · rw [hspec.2.1 p hpq]

theorem join_ne_dropLast_join (prof : Path) (a b : String) :
    Join prof a ≠ (Join prof b).dropLast := by
  unfold Join
  rw [List.dropLast_concat]
  intro h
  have := congrArg List.length h
  simp at this

theorem join_injective {prof : Path} {a b : String} (h : Join prof a = Join prof b) : a = b := by
  unfold Join at h
  simpa using h

/-- The loop over a concatenation: the second part runs from where the first ended. -/
theorem replaceLoop_append (pfx : String) (prof : Path) (src : String) (data : Bytes)
    (pre rest : List DirEntry) (fs : FS) (c : Nat) :
    replaceLoop pfx prof src data (pre ++ rest) fs c =
      match replaceLoop pfx prof src data pre fs c with
      | (.ok n, fs1) => replaceLoop pfx prof src data rest fs1 n
      | (.error m, fs1) => (.error m, fs1) := by
  induction pre generalizing fs c with
  | nil => rfl
  | cons e pre ih =>
    rw [List.cons_append, replaceLoop_cons, replaceLoop_cons]
    by_cases ht : isTarget pfx src e = true
    · rw [if_pos ht, if_pos ht]
      rcases hw : fs.WriteFile (Join prof e.Name) data with ⟨r, fs1⟩
      cases r with
      | error err => rfl
      | ok u => exact ih fs1 (c + 1)
    · rw [if_neg ht, if_neg ht]
      exact ih fs c

/-- Writes that the loop completed do not change the outcome of a write to an entry of
the same directory. -/
theorem replaceLoop_outcome_stable (pfx : String) (prof : Path) (src : String) (data : Bytes)
    (es : List DirEntry) (fs : FS) (c n : Nat) (fs2 : FS)
    (h : replaceLoop pfx prof src data es fs c = (.ok n, fs2)) (name : String) (d2 : Bytes) :
    (fs2.WriteFile (Join prof name) d2).1 = (fs.WriteFile (Join prof name) d2).1 := by
  induction es generalizing fs c with
  | nil =>
    simp only [replaceLoop_nil, Prod.mk.injEq] at h
    rw [h.2]
  | cons e rest ih =>
    rw [replaceLoop_cons] at h
    by_cases ht : isTarget pfx src e = true
    · rw [if_pos ht] at h
      have hst := writeFile_outcome_stable fs (Join prof e.Name) (Join prof name) data d2
      rcases hw : fs.WriteFile (Join prof e.Name) data with ⟨r, fs1⟩
      rw [hw] at h hst
      cases r with
      | error err => simp at h
      | ok u =>
        rw [ih fs1 (c + 1) h]
        exact hst rfl (join_ne_dropLast_join prof e.Name name)
    · rw [if_neg ht] at h
      exact ih fs c h

/-- When every write it attempts succeeds, the loop ends without error. -/
theorem replaceLoop_all_ok (pfx : String) (prof : Path) (src : String) (data : Bytes)
    (es : List DirEntry) (fs : FS) (c : Nat)
    (hall : ∀ e ∈ es, isTarget pfx src e = true →
      (fs.WriteFile (Join prof e.Name) data).1 = .ok ()) :
    ∃ fs2, replaceLoop pfx prof src data es fs c =
      (.ok (c + (es.filter (isTarget pfx src)).length), fs2) := by
  induction es generalizing fs c with
  | nil => exact ⟨fs, rfl⟩
  | cons e rest ih =>
    rw [replaceLoop_cons]
    by_cases ht : isTarget pfx src e = true
    · rw [if_pos ht, List.filter_cons_of_pos ht]
      have hok := hall e (List.mem_cons_self _ _) ht
      have hst := fun name => writeFile_outcome_stable fs (Join prof e.Name) (Join prof name)
        data data hok (join_ne_dropLast_join prof e.Name name)
      rcases hw : fs.WriteFile (Join prof e.Name) data with ⟨r, fs1⟩
      rw [hw] at hok hst
      simp only at hok
      subst hok
      simp only
      obtain ⟨fs2, h2⟩ := ih fs1 (c + 1) (fun x hx hxt => by
        rw [hst x.Name]; exact hall x (List.mem_cons_of_mem _ hx) hxt)
      refine ⟨fs2, ?_⟩
      rw [h2, List.length_cons]
      congr 2; omega
    · rw [if_neg ht, List.filter_cons_of_neg ht]
      exact ih fs c (fun x hx hxt => hall x (List.mem_cons_of_mem _ hx) hxt)

/-- When the first write that fails is the one to `e`, the loop stops there: the file
system is the one left by the entries before `e`. -/
theorem replaceLoop_fail (pfx : String) (prof : Path) (src : String) (data : Bytes)
    (pre post : List DirEntry) (e : DirEntry) (fs : FS) (c : Nat) (err : OSErr)
    (hpre : ∀ x ∈ pre, isTarget pfx src x = true →
      (fs.WriteFile (Join prof x.Name) data).1 = .ok ())
    (ht : isTarget pfx src e = true)
    (hfail : (fs.WriteFile (Join prof e.Name) data).1 = .error err) :
    ∃ n fs1, replaceLoop pfx prof src data pre fs c = (.ok n, fs1) ∧
      replaceLoop pfx prof src data (pre ++ e :: post) fs c =
        (.error ("failed to replace file " ++ e.Name ++ ": " ++ err.Error), fs1) := by
  obtain ⟨fs1, h1⟩ := replaceLoop_all_ok pfx prof src data pre fs c hpre
  refine ⟨_, fs1, h1, ?_⟩
  rw [replaceLoop_append, h1]
  simp only
  rw [replaceLoop_cons, if_pos ht]
  have hst := replaceLoop_outcome_stable pfx prof src data pre fs c _ fs1 h1 e.Name data
  rw [hfail] at hst
  have hun := (writeFile_spec fs1 (Join prof e.Name) data).2.2.1 err hst
  rcases hw : fs1.WriteFile (Join prof e.Name) data with ⟨r, fs3⟩
  rw [hw] at hst hun
  simp only at hst hun
  subst hst hun
  rfl

/-! ## The two kinds of configuration file -/

theorem replace_eq (k : Kind) (fs : FS) (prof source : Path) :
    replace k fs prof source =
      dropCount (replaceFiles k.pattern k.readMsg k.noneMsg fs prof source) := by
  cases k <;> rfl

theorem parseIdentity_eq (filename : String) (k : Kind) :
    parseIdentity filename k =
      (if (FindStringSubmatch k.pattern filename).length < 2 then
        parseIdentity filename k
      else .ok ((FindStringSubmatch k.pattern filename).getD 1 "")) := by
  cases k <;>
    simp only [parseIdentity, ExtractUserID, ExtractCharacterID, userIDRegex, characterIDRegex,
      Kind.pattern] <;> split <;> simp_all

/-- An accepted name is the literal of the kind, then the returned digits, then `.dat`. -/
theorem parseIdentity_ok_shape {filename id : String} {k : Kind}
    (h : parseIdentity filename k = .ok id) :
    id.toList ≠ [] ∧ (∀ c ∈ id.toList, c.isDigit = true) ∧
      filename.toList = k.pattern.toList ++ id.toList ++ ".dat".toList := by
  have hlen : ¬ (FindStringSubmatch k.pattern filename).length < 2 := by
    intro hlt
    cases k <;>
      simp only [parseIdentity, ExtractUserID, ExtractCharacterID, userIDRegex,
        characterIDRegex, Kind.pattern] at h hlt <;>
      rw [if_pos hlt] at h <;> cases h
  rw [parseIdentity_eq, if_neg hlen] at h
  have hne : FindStringSubmatch k.pattern filename ≠ [] := by
    intro h0; rw [h0] at hlen; simp at hlen
  obtain ⟨digits, hd1, hd2, hd3, hd4⟩ := findStringSubmatch_shape rfl hne
  rw [hd4] at h
  simp only [List.getD_cons_succ, List.getD_cons_zero, Except.ok.injEq] at h
  subst h
  exact ⟨hd1, hd2, hd3⟩

/-- Every name the identity parser accepts matches the pattern the replacer tests. -/
theorem parseIdentity_ok_glob {filename id : String} {k : Kind}
    (h : parseIdentity filename k = .ok id) :
    HasPrefix filename k.pattern = true ∧ HasSuffix filename ".dat" = true := by
  obtain ⟨_, _, hshape⟩ := parseIdentity_ok_shape h
  unfold HasPrefix HasSuffix
  rw [hshape]
  constructor
  · rw [List.isPrefixOf_iff_prefix, List.append_assoc]
    exact List.prefix_append _ _
  · rw [List.isSuffixOf_iff_suffix]
    exact List.suffix_append _ _

theorem dropCount_ok {r : Except String Nat × FS} {fs2 : FS}
    (h : dropCount r = (.ok (), fs2)) : ∃ n, r = (.ok n, fs2) := by
  obtain ⟨res, fs1⟩ := r
  cases res with
  | error m => simp [dropCount, Except.map] at h
  | ok n =>
    simp only [dropCount, Except.map, Prod.mk.injEq, true_and] at h
    exact ⟨n, by rw [h]⟩

/-- A replacer that returned without error has read the source, listed the directory
and run its loop to the end with a count that is not zero. -/
theorem replaceFiles_ok {pfx readMsg noneMsg : String} {fs fs2 : FS} {prof source : Path}
    {n : Nat} (h : replaceFiles pfx readMsg noneMsg fs prof source = (.ok n, fs2)) :
    ∃ content entries, fs.ReadFile source = .ok content ∧ fs.ReadDir prof = .ok entries ∧
      replaceLoop pfx prof (Base source) content entries fs 0 = (.ok n, fs2) ∧ n ≠ 0 := by
  unfold replaceFiles at h
  rcases hr : fs.ReadFile source with e | content
  · rw [hr] at h; simp at h
  · rcases hd : fs.ReadDir prof with e | entries
    · rw [hr, hd] at h; simp at h
    · rw [hr, hd] at h
      simp only at h
      rcases hl : replaceLoop pfx prof (Base source) content entries fs 0 with ⟨res, fs1⟩
      rw [hl] at h
      cases res with
      | error m => simp at h
      | ok c =>
        simp only at h
        by_cases hc : c = 0
        · rw [if_pos hc] at h; simp at h
        · rw [if_neg hc] at h
          simp only [Prod.mk.injEq, Except.ok.injEq] at h
          obtain ⟨h1, h2⟩ := h
          subst h1 h2
          exact ⟨content, entries, rfl, rfl, hl, hc⟩

/-- The replacer, once the source is read and the directory listed. -/
theorem replaceFiles_run {pfx readMsg noneMsg : String} {fs : FS} {prof source : Path}
    {content : Bytes} {entries : List DirEntry} (hr : fs.ReadFile source = .ok content)
    (hd : fs.ReadDir prof = .ok entries) :
    replaceFiles pfx readMsg noneMsg fs prof source =
      match replaceLoop pfx prof (Base source) content entries fs 0 with
      | (.error e, fs1) => (.error e, fs1)
      | (.ok replacedCount, fs1) =>
        if replacedCount = 0 then (.error noneMsg, fs1) else (.ok replacedCount, fs1) := by
  unfold replaceFiles
  rw [hr, hd]

theorem childName_eq_some {dir q : Path} {name : String} (h : childName dir q = some name) :
    q = Join dir name := by
  unfold childName at h
  split at h
  · rename_i hq
    have := List.dropLast_append_getLast? name h
    rw [hq] at this
    exact this.symm
  · cases h

theorem children_names (dir : Path) (l : List (Path × Node)) :
    (children dir l).map DirEntry.Name = (l.map Prod.fst).filterMap (childName dir) := by
  induction l with
  | nil => rfl
  | cons a l ih =>
    obtain ⟨q, n⟩ := a
    unfold children at ih ⊢
    rcases hc : childName dir q with _ | name
    · simp [List.filterMap_cons, hc, ih]
    · simp [List.filterMap_cons, hc, ih]

/-- In a well-formed file system a directory listing has no name twice. -/
theorem readDir_nodup {fs : FS} (hwf : fs.WF) {p : Path} {entries : List DirEntry}
    (h : fs.ReadDir p = .ok entries) : (entries.map DirEntry.Name).Nodup := by
  unfold FS.ReadDir at h
  split at h
  · cases h
  · cases h
  · split at h
    · simp only [Except.ok.injEq] at h
      subst h
      have hperm := List.perm_insertionSort
        (fun a b : DirEntry => charsLE a.Name.toList b.Name.toList = true) (children p fs.nodes)
      rw [(hperm.map DirEntry.Name).nodup_iff, children_names]
      refine List.Nodup.filterMap ?_ hwf
      intro a a2 b hb hb2
      rw [childName_eq_some hb, childName_eq_some hb2]
    · cases h

/-! ## Claims on the replacer -/

/-- C1. When `ReplaceUserFiles` (`ReplaceCharacterFiles`) returns without error, every
non-directory entry of the listing whose name `ExtractUserID` (`ExtractCharacterID`)
accepts and whose name is not the base name of the source holds exactly the bytes read
from the source at the start, and the entry named like the source is as it was. -/
theorem replace_overwrites_accepted (k : Kind) (fs fs2 : FS) (profilePath source : Path)
    (h : replace k fs profilePath source = (.ok (), fs2)) :
    ∃ content entries, fs.ReadFile source = .ok content ∧
      fs.ReadDir profilePath = .ok entries ∧
      (∀ e ∈ entries, e.IsDir = false → (∃ id, parseIdentity e.Name k = .ok id) →
        e.Name ≠ Base source → fs2.content (Join profilePath e.Name) = some content) ∧
      (∀ e ∈ entries, e.Name = Base source →
        fs2.find (Join profilePath e.Name) = fs.find (Join profilePath e.Name)) := by
  rw [replace_eq] at h
  obtain ⟨n, hn⟩ := dropCount_ok h
  obtain ⟨content, entries, hr, hd, hl, _⟩ := replaceFiles_ok hn
  refine ⟨content, entries, hr, hd, ?_, ?_⟩
  · intro e he hdir ⟨id, hid⟩ hne
    have hg := parseIdentity_ok_glob hid
    refine (replaceLoop_ok _ _ _ _ _ _ _ _ _ hl).2 e he ?_
    simp [isTarget, hdir, hg.1, hg.2, hne]
  · intro e _ hname
    have hfr := (replaceLoop_frame k.pattern profilePath (Base source) content entries fs 0).2
      (Join profilePath e.Name) (fun x _ hxt hxe => by
        have hx := join_injective hxe
        simp [isTarget, ← hx, hname] at hxt)
    rw [hl] at hfr
    exact hfr

/-- C1, on the example of the specification: `core_user_1.dat` and `core_user_3.dat`
end up with the bytes of `core_user_2.dat`, which is untouched. -/
theorem replace_overwrites_accepted_witness :
    replace .user fsThreeUsers ["p"] ["p", "core_user_2.dat"] = (.ok (), fsThreeUsersDone) ∧
    fsThreeUsersDone.content ["p", "core_user_1.dat"] = some [2, 2] ∧
    fsThreeUsersDone.content ["p", "core_user_3.dat"] = some [2, 2] ∧
    fsThreeUsersDone.find ["p", "core_user_2.dat"] = fsThreeUsers.find ["p", "core_user_2.dat"] := by
  have hrun : replace .user fsThreeUsers ["p"] ["p", "core_user_2.dat"] =
      (.ok (), fsThreeUsersDone) := by decide
  obtain ⟨content, entries, hr, hd, hw, hs⟩ :=
    replace_overwrites_accepted .user fsThreeUsers fsThreeUsersDone ["p"]
      ["p", "core_user_2.dat"] hrun
  have hr2 : fsThreeUsers.ReadFile ["p", "core_user_2.dat"] = .ok [2, 2] := by decide
  have hd2 : fsThreeUsers.ReadDir ["p"] = .ok [⟨"core_user_1.dat", false⟩,
      ⟨"core_user_2.dat", false⟩, ⟨"core_user_3.dat", false⟩] := by decide
  rw [hr2] at hr
  rw [hd2] at hd
  cases hr
  cases hd
  refine ⟨hrun, ?_, ?_, ?_⟩
  · exact hw ⟨"core_user_1.dat", false⟩ (by simp) rfl ⟨"1", by decide⟩ (by decide)
  · exact hw ⟨"core_user_3.dat", false⟩ (by simp) rfl ⟨"3", by decide⟩ (by decide)
  · exact hs ⟨"core_user_2.dat", false⟩ (by simp) (by decide)

/-- C2, as stated, fails: `core_user_abc.dat` is a name the identity parser rejects,
and `ReplaceUserFiles` overwrites it all the same, because the loop tests the prefix
`core_user_` and the suffix `.dat` only. -/
theorem replace_writes_rejected_name :
    (parseIdentity "core_user_abc.dat" .user).toBool = false ∧
    (ReplaceUserFiles fsStrayUser ["p"] ["p", "core_user_2.dat"]).1 = .ok () ∧
    fsStrayUser.content ["p", "core_user_abc.dat"] = some [7] ∧
    (ReplaceUserFiles fsStrayUser ["p"] ["p", "core_user_2.dat"]).2.content
      ["p", "core_user_abc.dat"] = some [2, 2] := by
  decide

/-- C2, amended. With a readable source and a listable profile directory, the entries
`ReplaceUserFiles` (`ReplaceCharacterFiles`) writes are the non-directory entries whose
name starts with `core_user_` (`core_char_`) and ends with `.dat`, minus the entry named
like the source: whatever the outcome, every other path of the file system is as before,
and on success each of those entries holds the source bytes. -/
theorem replace_writes_exactly_targets (k : Kind) (fs : FS) (profilePath source : Path)
    (content : Bytes) (entries : List DirEntry)
    (hr : fs.ReadFile source = .ok content) (hd : fs.ReadDir profilePath = .ok entries) :
    (replace k fs profilePath source).2.denied = fs.denied ∧
    (∀ q, (∀ e ∈ entries, isTarget k.pattern (Base source) e = true →
        q ≠ Join profilePath e.Name) →
      (replace k fs profilePath source).2.find q = fs.find q) ∧
    ((replace k fs profilePath source).1 = .ok () →
      ∀ e ∈ entries, isTarget k.pattern (Base source) e = true →
        (replace k fs profilePath source).2.content (Join profilePath e.Name) =
          some content) := by
  have hfr := replaceLoop_frame k.pattern profilePath (Base source) content entries fs 0
  have hok := replaceLoop_ok k.pattern profilePath (Base source) content entries fs 0
  rw [replace_eq, replaceFiles_run hr hd]
  rcases hl : replaceLoop k.pattern profilePath (Base source) content entries fs 0
    with ⟨res, fs1⟩
  rw [hl] at hfr
  cases res with
  | error m => exact ⟨hfr.1, hfr.2, fun h => by simp [dropCount, Except.map] at h⟩
  | ok c =>
    by_cases hc : c = 0
    · simp only [hc, if_true]
      exact ⟨hfr.1, hfr.2, fun h => by simp [dropCount, Except.map] at h⟩
    · simp only [hc, if_false]
      exact ⟨hfr.1, hfr.2, fun _ => (hok c fs1 hl).2⟩

/-- C2, amended, on the three-user example. -/
theorem replace_writes_exactly_targets_witness :
    fsThreeUsers.ReadFile ["p", "core_user_2.dat"] = .ok [2, 2] ∧
    (replace .user fsThreeUsers ["p"] ["p", "core_user_2.dat"]).2.find ["p"] =
      fsThreeUsers.find ["p"] ∧
    (replace .user fsThreeUsers ["p"] ["p", "core_user_2.dat"]).2.content
      ["p", "core_user_3.dat"] = some [2, 2] := by
  have hr : fsThreeUsers.ReadFile ["p", "core_user_2.dat"] = .ok [2, 2] := by decide
  have hd : fsThreeUsers.ReadDir ["p"] = .ok [⟨"core_user_1.dat", false⟩,
      ⟨"core_user_2.dat", false⟩, ⟨"core_user_3.dat", false⟩] := by decide
  obtain ⟨_, h2, h3⟩ := replace_writes_exactly_targets .user fsThreeUsers ["p"]
    ["p", "core_user_2.dat"] [2, 2] _ hr hd
  refine ⟨hr, h2 ["p"] (by decide), ?_⟩
  exact h3 (by decide) ⟨"core_user_3.dat", false⟩ (by simp) (by decide)

/-- C3, as stated, fails: in this profile the only user file the identity parser accepts
is the chosen source `core_user_5.dat`, so there is no eligible target, yet
`ReplaceUserFiles` does not return the error and overwrites `core_user_.dat`. -/
theorem replace_succeeds_without_accepted_target :
    fsOnlySource.ReadDir ["p"] = .ok [⟨"core_char_9.dat", false⟩, ⟨"core_user_.dat", false⟩,
      ⟨"core_user_5.dat", false⟩] ∧
    (parseIdentity "core_char_9.dat" .user).toBool = false ∧
    (parseIdentity "core_user_.dat" .user).toBool = false ∧
    (ReplaceUserFiles fsOnlySource ["p"] ["p", "core_user_5.dat"]).1 = .ok () ∧
    (ReplaceUserFiles fsOnlySource ["p"] ["p", "core_user_5.dat"]).2 ≠ fsOnlySource := by
  decide

/-- C3, amended. With a readable source and a listable profile directory: when no
non-directory entry other than the one named like the source starts with `core_user_`
(`core_char_`) and ends with `.dat`, the replacer returns its "no ... files found to
replace" error and the file system is unchanged; and when every write succeeds, the
replacer fails only if the number of such entries is zero. -/
theorem replace_fails_iff_no_target (k : Kind) (fs : FS) (profilePath source : Path)
    (content : Bytes) (entries : List DirEntry)
    (hr : fs.ReadFile source = .ok content) (hd : fs.ReadDir profilePath = .ok entries) :
    (entries.filter (isTarget k.pattern (Base source)) = [] →
      replace k fs profilePath source = (.error k.noneMsg, fs)) ∧
    ((∀ e ∈ entries, isTarget k.pattern (Base source) e = true →
        (fs.WriteFile (Join profilePath e.Name) content).1 = .ok ()) →
      ∀ msg, (replace k fs profilePath source).1 = .error msg →
        (entries.filter (isTarget k.pattern (Base source))).length = 0) := by
  constructor
  · intro hnone
    rw [replace_eq, replaceFiles_run hr hd, replaceLoop_filter, hnone, replaceLoop_nil]
    rfl
  · intro hall msg hmsg
    obtain ⟨fs2, h2⟩ := replaceLoop_all_ok k.pattern profilePath (Base source) content
      entries fs 0 hall
    rw [replace_eq, replaceFiles_run hr hd, h2] at hmsg
    by_contra hlen
    have hne : ¬ (0 + (entries.filter (isTarget k.pattern (Base source))).length = 0) := by
      omega
    simp only [hne, if_false] at hmsg
    simp [dropCount, Except.map] at hmsg

/-- C3, amended, on a profile that holds the source and a character file only. -/
theorem replace_fails_iff_no_target_witness :
    replace .user
      { nodes := [(["p"], plainDir), (["p", "core_char_9.dat"], plainFile [9]),
          (["p", "core_user_5.dat"], plainFile [5])], denied := [] }
      ["p"] ["p", "core_user_5.dat"] =
    (.error "no user files found to replace",
      { nodes := [(["p"], plainDir), (["p", "core_char_9.dat"], plainFile [9]),
          (["p", "core_user_5.dat"], plainFile [5])], denied := [] }) :=
  (replace_fails_iff_no_target .user
    { nodes := [(["p"], plainDir), (["p", "core_char_9.dat"], plainFile [9]),
        (["p", "core_user_5.dat"], plainFile [5])], denied := [] }
    ["p"] ["p", "core_user_5.dat"] [5]
    [⟨"core_char_9.dat", false⟩, ⟨"core_user_5.dat", false⟩] (by decide) (by decide)).1
    (by decide)

/-- C4. In a well-formed file system, let the entries the loop overwrites be, in listing
order, `before ++ t :: after`, where every write to an entry of `before` succeeds and the
write to `t` (the N-th, `N = before.length + 1`) fails. Then the replacer returns the
error of that write at once: the entries of `before` hold the source bytes, and the
entries of `after` are as they were. -/
theorem replace_stops_at_first_failure (k : Kind) (fs : FS) (profilePath source : Path)
    (content : Bytes) (entries before after : List DirEntry) (t : DirEntry) (err : OSErr)
    (hwf : fs.WF)
    (hr : fs.ReadFile source = .ok content) (hd : fs.ReadDir profilePath = .ok entries)
    (hts : entries.filter (isTarget k.pattern (Base source)) = before ++ t :: after)
    (hbefore : ∀ x ∈ before, (fs.WriteFile (Join profilePath x.Name) content).1 = .ok ())
    (hfail : (fs.WriteFile (Join profilePath t.Name) content).1 = .error err) :
    (replace k fs profilePath source).1 =
      .error ("failed to replace file " ++ t.Name ++ ": " ++ err.Error) ∧
    (∀ x ∈ before,
      (replace k fs profilePath source).2.content (Join profilePath x.Name) = some content) ∧
    (∀ x ∈ after,
      (replace k fs profilePath source).2.find (Join profilePath x.Name) =
        fs.find (Join profilePath x.Name)) := by
  have htarget : ∀ x ∈ before ++ t :: after, isTarget k.pattern (Base source) x = true := by
    intro x hx
    rw [← hts] at hx
    exact (List.mem_filter.1 hx).2
  have hnd : ((before ++ t :: after).map DirEntry.Name).Nodup := by
    rw [← hts]
    exact (readDir_nodup hwf hd).sublist ((List.filter_sublist _).map _)
  obtain ⟨n, fs1, hpre, hrun⟩ := replaceLoop_fail k.pattern profilePath (Base source) content
    before after t fs 0 err (fun x hx _ => hbefore x hx)
    (htarget t (by simp)) hfail
  have hres : replace k fs profilePath source =
      (.error ("failed to replace file " ++ t.Name ++ ": " ++ err.Error), fs1) := by
    rw [replace_eq, replaceFiles_run hr hd, replaceLoop_filter, hts, hrun]
    rfl
  rw [hres]
  refine ⟨rfl, ?_, ?_⟩
  · intro x hx
    exact (replaceLoop_ok _ _ _ _ _ _ _ _ _ hpre).2 x hx
      (htarget x (List.mem_append_left _ hx))
  · intro x hx
    have hfr := (replaceLoop_frame k.pattern profilePath (Base source) content before fs 0).2
      (Join profilePath x.Name) (fun y hy _ hxy => by
        have hname : x.Name = y.Name := join_injective hxy
        rw [List.map_append, List.nodup_append] at hnd
        have hxm : x.Name ∈ (t :: after).map DirEntry.Name :=
          List.mem_map_of_mem _ (List.mem_cons_of_mem _ hx)
        rw [hname] at hxm
        exact hnd.2.2 (List.mem_map_of_mem _ hy) hxm)
    rw [hpre] at hfr
    exact hfr

/-- C4, on a profile whose third target is read-only: the two before it are overwritten,
the one after it is not. -/
theorem replace_stops_at_first_failure_witness :
    (replace .user fsReadOnlySecond ["p"] ["p", "core_user_0.dat"]).1 =
      .error "failed to replace file core_user_2.dat: permission denied" ∧
    (∀ x ∈ [(⟨"core_user_1.dat", false⟩ : DirEntry)],
      (replace .user fsReadOnlySecond ["p"] ["p", "core_user_0.dat"]).2.content
        (Join ["p"] x.Name) = some [0]) ∧
    (∀ x ∈ [(⟨"core_user_3.dat", false⟩ : DirEntry)],
      (replace .user fsReadOnlySecond ["p"] ["p", "core_user_0.dat"]).2.find
        (Join ["p"] x.Name) = fsReadOnlySecond.find (Join ["p"] x.Name)) :=
  replace_stops_at_first_failure .user fsReadOnlySecond ["p"] ["p", "core_user_0.dat"] [0]
    [⟨"core_user_0.dat", false⟩, ⟨"core_user_1.dat", false⟩, ⟨"core_user_2.dat", false⟩,
      ⟨"core_user_3.dat", false⟩]
    [⟨"core_user_1.dat", false⟩] [⟨"core_user_3.dat", false⟩] ⟨"core_user_2.dat", false⟩
    .permission (by decide) (by decide) (by decide) (by decide) (by decide) (by decide)

/-! ## The order of the stages of `runSync` -/

theorem call_trace {σ α : Type} {r r1 : Run σ} {c : Call} {f : σ → Except String α × σ}
    {res : Except String α} (h : r.call c f = (res, r1)) :
    r1.trace = r.trace ++ [⟨c, res.toBool⟩] := by
  unfold Run.call at h
  simp only [Prod.mk.injEq] at h
  obtain ⟨h1, h2⟩ := h
  subst h1 h2
  rfl

theorem chain_single (c : Call) (cs : List Call) (b : Bool) : chain (c :: cs) [⟨c, b⟩] :=
  ⟨rfl, Or.inl rfl⟩

theorem chain_cons {c : Call} {cs : List Call} {t : List Event} (h : chain cs t) :
    chain (c :: cs) (⟨c, true⟩ :: t) :=
  ⟨rfl, Or.inr ⟨rfl, h⟩⟩

/-- In a chained trace, a call is reached only past every call that comes before it in
the order, so each of those returned without error. -/
theorem chain_before {cs : List Call} {t : List Event} (h : chain cs t)
    {l1 l2 : List Call} {a b : Call} (hcs : cs = l1 ++ a :: l2) (hb : b ∉ l1) (hab : b ≠ a)
    {pre post : List Event} {ok : Bool} (ht : t = pre ++ ⟨b, ok⟩ :: post) :
    ⟨a, true⟩ ∈ pre := by
  induction l1 generalizing cs t pre with
  | nil =>
    subst hcs
    cases pre with
    | nil =>
      subst ht
      exact absurd h.1 hab
    | cons e pre =>
      simp only [List.cons_append] at ht
      subst ht
      obtain ⟨hc, hrest⟩ := h
      rcases hrest with hnil | ⟨hok, _⟩
      · simp at hnil
      · have : e = ⟨a, true⟩ := by
          cases e
          simp_all
        rw [this]
        exact List.mem_cons_self _ _
  | cons c l1 ih =>
    subst hcs
    cases pre with
    | nil =>
      subst ht
      exact absurd h.1.symm (fun hcb => hb (hcb ▸ List.mem_cons_self _ _))
    | cons e pre =>
      simp only [List.cons_append] at ht
      subst ht
      obtain ⟨_, hrest⟩ := h
      rcases hrest with hnil | ⟨_, hch⟩
      · simp at hnil
      · exact List.mem_cons_of_mem _
          (ih hch rfl (fun hmem => hb (List.mem_cons_of_mem _ hmem)) rfl)

theorem saveStep_chain {σ : Type} (env : Env σ) (cfg : Config) (r : Run σ) :
    ∃ t, (saveStep env cfg r).2.trace = r.trace ++ t ∧ chain [.SaveConfig] t := by
  unfold saveStep
  split
  · rename_i err r1 heq
    exact ⟨[⟨.SaveConfig, false⟩], call_trace heq, chain_single _ _ _⟩
  · rename_i u r1 heq
    exact ⟨[⟨.SaveConfig, true⟩], call_trace heq, chain_single _ _ _⟩

theorem replaceStep_chain {σ : Type} (env : Env σ) (profilesDir : Path)
    (selectedProfile : Profile) (selectedUserFile : UserFile)
    (selectedCharFile : CharacterFile) (backupPath : Path) (r : Run σ) :
    ∃ t, (replaceStep env profilesDir selectedProfile selectedUserFile selectedCharFile
        backupPath r).2.trace = r.trace ++ t ∧
      chain [.ReplaceUserFiles, .ReplaceCharacterFiles, .SaveConfig] t := by
  unfold replaceStep
  simp only
  split
  · rename_i err r1 heq
    exact ⟨[⟨.ReplaceUserFiles, false⟩], call_trace heq, chain_single _ _ _⟩
  · rename_i u r1 heq
    have h1 : r1.trace = r.trace ++ [⟨.ReplaceUserFiles, true⟩] := call_trace heq
    split
    · rename_i err r2 heq2
      have h2 : r2.trace = r1.trace ++ [⟨.ReplaceCharacterFiles, false⟩] := call_trace heq2
      refine ⟨[⟨.ReplaceUserFiles, true⟩, ⟨.ReplaceCharacterFiles, false⟩], ?_,
        chain_cons (chain_single _ _ _)⟩
      simp [Run.print, h2, h1]
    · rename_i u2 r2 heq2
      have h2 : r2.trace = r1.trace ++ [⟨.ReplaceCharacterFiles, true⟩] := call_trace heq2
      obtain ⟨t, ht, hch⟩ := saveStep_chain env ⟨profilesDir, selectedProfile.Name,
        selectedUserFile.ID, selectedCharFile.ID⟩ r2
      refine ⟨⟨.ReplaceUserFiles, true⟩ :: ⟨.ReplaceCharacterFiles, true⟩ :: t, ?_,
        chain_cons (chain_cons hch)⟩
      rw [ht, h2, h1]
      simp

theorem backupStep_chain {σ : Type} (env : Env σ) (profilesDir : Path)
    (selectedProfile : Profile) (selectedUserFile : UserFile)
    (selectedCharFile : CharacterFile) (r : Run σ) :
    ∃ t, (backupStep env profilesDir selectedProfile selectedUserFile
        selectedCharFile r).2.trace = r.trace ++ t ∧
      chain [.CreateBackup, .VerifyBackup, .ReplaceUserFiles, .ReplaceCharacterFiles,
        .SaveConfig] t := by
  unfold backupStep
  simp only
  split
  · rename_i err r1 heq
    exact ⟨[⟨.CreateBackup, false⟩], call_trace heq, chain_single _ _ _⟩
  · rename_i backupPath r1 heq
    have h1 : r1.trace = r.trace ++ [⟨.CreateBackup, true⟩] := call_trace heq
    split
    · rename_i err r2 heq2
      have h2 : r2.trace = r1.trace ++ [⟨.VerifyBackup, false⟩] := call_trace heq2
      refine ⟨[⟨.CreateBackup, true⟩, ⟨.VerifyBackup, false⟩], ?_,
        chain_cons (chain_single _ _ _)⟩
      simp [Run.print, h2, h1]
    · rename_i u2 r2 heq2
      have h2 : r2.trace = r1.trace ++ [⟨.VerifyBackup, true⟩] := call_trace heq2
      obtain ⟨t, ht, hch⟩ := replaceStep_chain env profilesDir selectedProfile
        selectedUserFile selectedCharFile backupPath
        (r2.print ("Backup created successfully: " ++ pathString backupPath))
      refine ⟨⟨.CreateBackup, true⟩ :: ⟨.VerifyBackup, true⟩ :: t, ?_,
        chain_cons (chain_cons hch)⟩
      rw [ht]
      simp [Run.print, h2, h1]

theorem validateStep_chain {σ : Type} (env : Env σ) (profilesDir : Path)
    (selectedProfile : Profile) (selectedUserFile : UserFile)
    (selectedCharFile : CharacterFile) (r : Run σ) :
    ∃ t, (validateStep env profilesDir selectedProfile selectedUserFile
        selectedCharFile r).2.trace = r.trace ++ t ∧
      chain [.ValidateOperation, .CreateBackup, .VerifyBackup, .ReplaceUserFiles,
        .ReplaceCharacterFiles, .SaveConfig] t := by
  unfold validateStep
  split
  · rename_i err r1 heq
    exact ⟨[⟨.ValidateOperation, false⟩], call_trace heq, chain_single _ _ _⟩
  · rename_i u r1 heq
    have h1 : r1.trace = r.trace ++ [⟨.ValidateOperation, true⟩] := call_trace heq
    obtain ⟨t, ht, hch⟩ := backupStep_chain env profilesDir selectedProfile
      selectedUserFile selectedCharFile r1
    refine ⟨⟨.ValidateOperation, true⟩ :: t, ?_, chain_cons hch⟩
    rw [ht, h1]
    simp

theorem confirmStep_chain {σ : Type} (env : Env σ) (profilesDir : Path)
    (selectedProfile : Profile) (selectedUserFile : UserFile)
    (selectedCharFile : CharacterFile) (r : Run σ) :
    ∃ t, (confirmStep env profilesDir selectedProfile selectedUserFile
        selectedCharFile r).2.trace = r.trace ++ t ∧
      chain [.confirmOperation, .ValidateOperation, .CreateBackup, .VerifyBackup,
        .ReplaceUserFiles, .ReplaceCharacterFiles, .SaveConfig] t := by
  unfold confirmStep
  simp only
  cases hc : (env.confirmOperation selectedProfile selectedUserFile selectedCharFile
    r.world).1
  · exact ⟨[⟨.confirmOperation, false⟩], by simp [Run.print], chain_single _ _ _⟩
  · obtain ⟨t, ht, hch⟩ := validateStep_chain env profilesDir selectedProfile
      selectedUserFile selectedCharFile
      ⟨(env.confirmOperation selectedProfile selectedUserFile selectedCharFile r.world).2,
        r.trace ++ [⟨.confirmOperation, true⟩], r.output⟩
    refine ⟨⟨.confirmOperation, true⟩ :: t, ?_, chain_cons hch⟩
    simp only [Bool.not_true, Bool.false_eq_true, if_false]
    rw [ht]
    simp

theorem characterStep_chain {σ : Type} (env : Env σ) (cfg : Config) (profilesDir : Path)
    (selectedProfile : Profile) (selectedUserFile : UserFile) (r : Run σ) :
    ∃ t, (characterStep env cfg profilesDir selectedProfile selectedUserFile r).2.trace =
        r.trace ++ t ∧
      chain [.ListCharacterFiles, .selectCharacterFile, .confirmOperation,
        .ValidateOperation, .CreateBackup, .VerifyBackup, .ReplaceUserFiles,
        .ReplaceCharacterFiles, .SaveConfig] t := by
  unfold characterStep
  split
  · rename_i err r1 heq
    exact ⟨[⟨.ListCharacterFiles, false⟩], call_trace heq, chain_single _ _ _⟩
  · rename_i charFiles r1 heq
    have h1 : r1.trace = r.trace ++ [⟨.ListCharacterFiles, true⟩] := call_trace heq
    split
    · exact ⟨[⟨.ListCharacterFiles, true⟩], h1, chain_single _ _ _⟩
    · split
      · rename_i err r2 heq2
        have h2 : r2.trace = r1.trace ++ [⟨.selectCharacterFile, false⟩] := call_trace heq2
        refine ⟨[⟨.ListCharacterFiles, true⟩, ⟨.selectCharacterFile, false⟩], ?_,
          chain_cons (chain_single _ _ _)⟩
        simp [Run.print, h2, h1]
      · rename_i selectedCharFile r2 heq2
        have h2 : r2.trace = r1.trace ++ [⟨.selectCharacterFile, true⟩] := call_trace heq2
        obtain ⟨t, ht, hch⟩ := confirmStep_chain env profilesDir selectedProfile
          selectedUserFile selectedCharFile r2
        refine ⟨⟨.ListCharacterFiles, true⟩ :: ⟨.selectCharacterFile, true⟩ :: t, ?_,
          chain_cons (chain_cons hch)⟩
        rw [ht, h2, h1]
        simp

theorem userStep_chain {σ : Type} (env : Env σ) (cfg : Config) (profilesDir : Path)
    (selectedProfile : Profile) (r : Run σ) :
    ∃ t, (userStep env cfg profilesDir selectedProfile r).2.trace = r.trace ++ t ∧
      chain [.ListUserFiles, .selectUserFile, .ListCharacterFiles, .selectCharacterFile,
        .confirmOperation, .ValidateOperation, .CreateBackup, .VerifyBackup,
        .ReplaceUserFiles, .ReplaceCharacterFiles, .SaveConfig] t := by
  unfold userStep
  split
  · rename_i err r1 heq
    exact ⟨[⟨.ListUserFiles, false⟩], call_trace heq, chain_single _ _ _⟩
  · rename_i userFiles r1 heq
    have h1 : r1.trace = r.trace ++ [⟨.ListUserFiles, true⟩] := call_trace heq
    split
    · exact ⟨[⟨.ListUserFiles, true⟩], h1, chain_single _ _ _⟩
    · split
      · rename_i err r2 heq2
        have h2 : r2.trace = r1.trace ++ [⟨.selectUserFile, false⟩] := call_trace heq2
        refine ⟨[⟨.ListUserFiles, true⟩, ⟨.selectUserFile, false⟩], ?_,
          chain_cons (chain_single _ _ _)⟩
        simp [Run.print, h2, h1]
      · rename_i selectedUserFile r2 heq2
        have h2 : r2.trace = r1.trace ++ [⟨.selectUserFile, true⟩] := call_trace heq2
        obtain ⟨t, ht, hch⟩ := characterStep_chain env cfg profilesDir selectedProfile
          selectedUserFile r2
        refine ⟨⟨.ListUserFiles, true⟩ :: ⟨.selectUserFile, true⟩ :: t, ?_,
          chain_cons (chain_cons hch)⟩
        rw [ht, h2, h1]
        simp

theorem profileStep_chain {σ : Type} (env : Env σ) (cfg : Config) (r : Run σ) :
    ∃ t, (profileStep env cfg r).2.trace = r.trace ++ t ∧ chain callOrder t := by
  unfold profileStep callOrder
  split
  · rename_i err r1 heq
    exact ⟨[⟨.discoverProfilesDirectory, false⟩], call_trace heq, chain_single _ _ _⟩
  · rename_i profilesDir r1 heq
    have h1 : r1.trace = r.trace ++ [⟨.discoverProfilesDirectory, true⟩] := call_trace heq
    split
    · rename_i err r2 heq2
      have h2 : r2.trace = r1.trace ++ [⟨.selectProfile, false⟩] := call_trace heq2
      refine ⟨[⟨.discoverProfilesDirectory, true⟩, ⟨.selectProfile, false⟩], ?_,
        chain_cons (chain_single _ _ _)⟩
      simp [Run.print, h2, h1]
    · rename_i selectedProfile r2 heq2
      have h2 : r2.trace = r1.trace ++ [⟨.selectProfile, true⟩] := call_trace heq2
      obtain ⟨t, ht, hch⟩ := userStep_chain env cfg profilesDir selectedProfile r2
      refine ⟨⟨.discoverProfilesDirectory, true⟩ :: ⟨.selectProfile, true⟩ :: t, ?_,
        chain_cons (chain_cons hch)⟩
      rw [ht, h2, h1]
      simp

/-- The trace of a run: `LoadConfig`, whatever it returned, then the other calls in
program order, each reached only when the one before it returned without error. -/
theorem runSync_chain {σ : Type} (env : Env σ) (w : σ) :
    ∃ b t, (runSync env w).2.trace = ⟨.LoadConfig, b⟩ :: t ∧ chain callOrder t := by
  unfold runSync
  split
  · rename_i err r1 heq
    have h1 : r1.trace = [] ++ [⟨.LoadConfig, false⟩] := call_trace heq
    obtain ⟨t, ht, hch⟩ := profileStep_chain env ⟨[], "", "", ""⟩
      (r1.print ("Warning: Failed to load config: " ++ err))
    refine ⟨false, t, ?_, hch⟩
    rw [ht]
    simp [Run.print, h1]
  · rename_i cfg r1 heq
    have h1 : r1.trace = [] ++ [⟨.LoadConfig, true⟩] := call_trace heq
    obtain ⟨t, ht, hch⟩ := profileStep_chain env cfg r1
    refine ⟨true, t, ?_, hch⟩
    rw [ht]
    simp [h1]

/-- C5. In every run of `runSync`, a call of `CreateBackup` comes only after
`ValidateOperation` returned nil, a call of `VerifyBackup` only after `CreateBackup`
returned nil, a call of `ReplaceUserFiles` only after `VerifyBackup` returned nil, and a
call of `ReplaceCharacterFiles` only after `ReplaceUserFiles` returned nil; hence neither
replacer is called unless validation, backup and verification all succeeded. -/
theorem runSync_stage_order {σ : Type} (env : Env σ) (w : σ) (pre post : List Event)
    (c : Call) (ok : Bool) (h : (runSync env w).2.trace = pre ++ ⟨c, ok⟩ :: post) :
    (c = .CreateBackup → ⟨.ValidateOperation, true⟩ ∈ pre) ∧
    (c = .VerifyBackup → ⟨.CreateBackup, true⟩ ∈ pre) ∧
    (c = .ReplaceUserFiles → ⟨.VerifyBackup, true⟩ ∈ pre ∧ ⟨.CreateBackup, true⟩ ∈ pre ∧
      ⟨.ValidateOperation, true⟩ ∈ pre) ∧
    (c = .ReplaceCharacterFiles → ⟨.ReplaceUserFiles, true⟩ ∈ pre ∧
      ⟨.VerifyBackup, true⟩ ∈ pre ∧ ⟨.CreateBackup, true⟩ ∈ pre ∧
      ⟨.ValidateOperation, true⟩ ∈ pre) := by
  obtain ⟨b, t, ht, hch⟩ := runSync_chain env w
  rw [ht] at h
  have key : ∀ (a : Call) (l1 l2 : List Call), callOrder = l1 ++ a :: l2 → c ∉ l1 → c ≠ a →
      c ≠ .LoadConfig → (⟨a, true⟩ : Event) ∈ pre := by
    intro a l1 l2 hcs hc1 hca hcl
    cases pre with
    | nil =>
      simp only [List.nil_append, List.cons.injEq] at h
      have hcall := congrArg Event.call h.1
      exact absurd hcall.symm hcl
    | cons e pre2 =>
      simp only [List.cons_append, List.cons.injEq] at h
      exact List.mem_cons_of_mem _ (chain_before hch hcs hc1 hca h.2)
  refine ⟨?_, ?_, ?_, ?_⟩
  · intro hc
    subst hc
    exact key .ValidateOperation (callOrder.take 7) (callOrder.drop 8) (by decide)
      (by decide) (by decide) (by decide)
  · intro hc
    subst hc
    exact key .CreateBackup (callOrder.take 8) (callOrder.drop 9) (by decide)
      (by decide) (by decide) (by decide)
  · intro hc
    subst hc
    exact ⟨key .VerifyBackup (callOrder.take 9) (callOrder.drop 10) (by decide)
        (by decide) (by decide) (by decide),
      key .CreateBackup (callOrder.take 8) (callOrder.drop 9) (by decide)
        (by decide) (by decide) (by decide),
      key .ValidateOperation (callOrder.take 7) (callOrder.drop 8) (by decide)
        (by decide) (by decide) (by decide)⟩
  · intro hc
    subst hc
    exact ⟨key .ReplaceUserFiles (callOrder.take 10) (callOrder.drop 11) (by decide)
        (by decide) (by decide) (by decide),
      key .VerifyBackup (callOrder.take 9) (callOrder.drop 10) (by decide)
        (by decide) (by decide) (by decide),
      key .CreateBackup (callOrder.take 8) (callOrder.drop 9) (by decide)
        (by decide) (by decide) (by decide),
      key .ValidateOperation (callOrder.take 7) (callOrder.drop 8) (by decide)
        (by decide) (by decide) (by decide)⟩

/-- C5, on a run in which every call succeeds: the call of `ReplaceCharacterFiles` is
the thirteenth, after the four stages before it returned nil. -/
theorem runSync_stage_order_witness :
    (runSync envAllOk ()).2.trace =
      [⟨.LoadConfig, true⟩, ⟨.discoverProfilesDirectory, true⟩, ⟨.selectProfile, true⟩,
        ⟨.ListUserFiles, true⟩, ⟨.selectUserFile, true⟩, ⟨.ListCharacterFiles, true⟩,
        ⟨.selectCharacterFile, true⟩, ⟨.confirmOperation, true⟩, ⟨.ValidateOperation, true⟩,
        ⟨.CreateBackup, true⟩, ⟨.VerifyBackup, true⟩, ⟨.ReplaceUserFiles, true⟩] ++
      ⟨.ReplaceCharacterFiles, true⟩ :: [⟨.SaveConfig, true⟩] ∧
    (⟨.ReplaceUserFiles, true⟩ : Event) ∈
      [⟨.LoadConfig, true⟩, ⟨.discoverProfilesDirectory, true⟩, ⟨.selectProfile, true⟩,
        ⟨.ListUserFiles, true⟩, ⟨.selectUserFile, true⟩, ⟨.ListCharacterFiles, true⟩,
        ⟨.selectCharacterFile, true⟩, ⟨.confirmOperation, true⟩, ⟨.ValidateOperation, true⟩,
        ⟨.CreateBackup, true⟩, ⟨.VerifyBackup, true⟩, ⟨.ReplaceUserFiles, true⟩] :=
  have h : (runSync envAllOk ()).2.trace =
      [⟨.LoadConfig, true⟩, ⟨.discoverProfilesDirectory, true⟩, ⟨.selectProfile, true⟩,
        ⟨.ListUserFiles, true⟩, ⟨.selectUserFile, true⟩, ⟨.ListCharacterFiles, true⟩,
        ⟨.selectCharacterFile, true⟩, ⟨.confirmOperation, true⟩, ⟨.ValidateOperation, true⟩,
        ⟨.CreateBackup, true⟩, ⟨.VerifyBackup, true⟩, ⟨.ReplaceUserFiles, true⟩] ++
      ⟨.ReplaceCharacterFiles, true⟩ :: [⟨.SaveConfig, true⟩] := by decide
  ⟨h, ((runSync_stage_order envAllOk () _ _ .ReplaceCharacterFiles true h).2.2.2 rfl).1⟩

/-! ## Claims on the pre-flight validator -/

/-- What `os.Remove` does to the file system, in every case. -/
theorem remove_spec (fs : FS) (p : Path) :
    (fs.Remove p).2.denied = fs.denied ∧
    (∀ q, q ≠ p → (fs.Remove p).2.find q = fs.find q) ∧
    (∀ e, (fs.Remove p).1 = .error e → (fs.Remove p).2 = fs) ∧
    ((fs.Remove p).1 = .ok () → (fs.Remove p).2.find p = none) := by
  unfold FS.Remove
  split
  · simp
  · split
    · simp
    · split
      · split
        · simp
        · split
          · simp
          · refine ⟨rfl, ?_, ?_, ?_⟩
            · intro q hq; simp [FS.find, lookup_unbind, hq]
            · intro e h; simp at h
            · intro _; simp [FS.find, lookup_unbind]
      · simp

/-- What `checkWritable` does to the file system, in every case. -/
theorem checkWritable_spec (fs : FS) (dirPath : Path) :
    (checkWritable fs dirPath).2.denied = fs.denied ∧
    (∀ q, q ≠ probePath dirPath → (checkWritable fs dirPath).2.find q = fs.find q) ∧
    (∀ e, (checkWritable fs dirPath).1 = .error e → (checkWritable fs dirPath).2 = fs) ∧
    ((checkWritable fs dirPath).1 = .ok () → ∀ d, fs.find dirPath = some (.dir d) →
      d.allowRemove = true → (checkWritable fs dirPath).2.find (probePath dirPath) = none) := by
  have hc := openTrunc_spec fs true (probePath dirPath) []
  unfold checkWritable
  simp only
  rcases hcr : fs.Create (probePath dirPath) with ⟨res, fs1⟩
  unfold FS.Create at hcr
  rw [hcr] at hc
  cases res with
  | error err =>
    refine ⟨hc.1, hc.2.1, fun e _ => hc.2.2.1 err rfl, fun h => ?_⟩
    simp at h
  | ok u =>
    have hr := remove_spec fs1 (probePath dirPath)
    have hkey : (∀ d, fs.find dirPath = some (.dir d) → d.allowRemove = true →
        (fs1.Remove (probePath dirPath)).2.find (probePath dirPath) = none) := by
      intro d hd hrm
      apply hr.2.2.2
      have hcontent := hc.2.2.2 rfl
      have hparent : fs1.find (probePath dirPath).dropLast = some (.dir d) := by
        have hne : (probePath dirPath).dropLast ≠ probePath dirPath := by
          intro h
          have := congrArg List.length h
          simp [probePath, Join] at this
        rw [hc.2.1 _ hne]
        simpa [probePath, Join] using hd
      have hden : probePath dirPath ∉ fs1.denied := by
        rw [hc.1]
        intro hmem
        unfold FS.openTrunc at hcr
        simp [hmem] at hcr
      unfold FS.content at hcontent
      unfold FS.Remove
      rw [if_neg hden, hparent]
      rcases hfp : fs1.find (probePath dirPath) with _ | n
      · rw [hfp] at hcontent; simp at hcontent
      · cases n with
        | dir d2 => rw [hfp] at hcontent; simp at hcontent
        | file f => simp [hrm, Node.IsDir]
    simp only
    rcases hrr : fs1.Remove (probePath dirPath) with ⟨res2, fs2⟩
    rw [hrr] at hr hkey
    cases res2 with
    | error err2 =>
      simp only
      refine ⟨hr.1.trans hc.1, fun q hq => (hr.2.1 q hq).trans (hc.2.1 q hq), ?_, fun _ => hkey⟩
      intro e h
      simp at h
    | ok u2 =>
      simp only
      refine ⟨hr.1.trans hc.1, fun q hq => (hr.2.1 q hq).trans (hc.2.1 q hq), ?_, fun _ => hkey⟩
      intro e h
      simp at h

/-- C6. `ValidateOperation` runs its checks in the order profile path, source user file,
source character file, writability, and returns the error of the first one that fails;
when one of the first three fails the file system is exactly as before, so the marker
file is created only after the three passed. -/
theorem validateOperation_fail_fast (fs : FS) (profilePath sourceUserFile sourceCharFile : Path) :
    (∀ e, ValidateProfilePath fs profilePath = .error e →
      ValidateOperation fs profilePath sourceUserFile sourceCharFile =
        (.error ("profile validation failed: " ++ e), fs)) ∧
    (ValidateProfilePath fs profilePath = .ok () →
      ∀ e, ValidateSourceFile fs sourceUserFile = .error e →
        ValidateOperation fs profilePath sourceUserFile sourceCharFile =
          (.error ("user file validation failed: " ++ e), fs)) ∧
    (ValidateProfilePath fs profilePath = .ok () →
      ValidateSourceFile fs sourceUserFile = .ok () →
      ∀ e, ValidateSourceFile fs sourceCharFile = .error e →
        ValidateOperation fs profilePath sourceUserFile sourceCharFile =
          (.error ("character file validation failed: " ++ e), fs)) ∧
    (ValidateProfilePath fs profilePath = .ok () →
      ValidateSourceFile fs sourceUserFile = .ok () →
      ValidateSourceFile fs sourceCharFile = .ok () →
      (∀ e, (checkWritable fs profilePath).1 = .error e →
        ValidateOperation fs profilePath sourceUserFile sourceCharFile =
          (.error ("profile directory is not writable: " ++ e), fs)) ∧
      ((checkWritable fs profilePath).1 = .ok () →
        ValidateOperation fs profilePath sourceUserFile sourceCharFile =
          (.ok (), (checkWritable fs profilePath).2))) := by
  refine ⟨?_, ?_, ?_, ?_⟩
  · intro e h
    simp [ValidateOperation, h]
  · intro h1 e h2
    simp [ValidateOperation, h1, h2]
  · intro h1 h2 e h3
    simp [ValidateOperation, h1, h2, h3]
  · intro h1 h2 h3
    have hspec := (checkWritable_spec fs profilePath).2.2.1
    simp only [ValidateOperation, h1, h2, h3]
    rcases hcw : checkWritable fs profilePath with ⟨res, fs1⟩
    rw [hcw] at hspec
    cases res with
    | error err =>
      refine ⟨fun e he => ?_, fun h => by simp at h⟩
      simp only [Except.error.injEq] at he
      subst he
      simp only at hspec
      rw [hspec err rfl]
    | ok u => exact ⟨fun e he => by simp at he, fun _ => rfl⟩

/-- C6, on a profile whose chosen user file is missing: the second check fails and
nothing is touched. -/
theorem validateOperation_fail_fast_witness :
    ValidateOperation (fsProfile plainDir []) ["p"] ["p", "core_user_9.dat"]
        ["p", "core_char_2.dat"] =
      (.error ("user file validation failed: " ++ "source file does not exist: p/core_user_9.dat"),
        fsProfile plainDir []) :=
  (validateOperation_fail_fast (fsProfile plainDir []) ["p"] ["p", "core_user_9.dat"]
    ["p", "core_char_2.dat"]).2.1 (by decide)
    "source file does not exist: p/core_user_9.dat" (by decide)

/-- C7, as stated, fails twice. In a directory that accepts new entries and refuses
removals the call succeeds and leaves the marker file behind. And in a directory that
accepts no change at all, a marker file left by an earlier call is truncated in place,
so the call succeeds although the directory is not writable. -/
theorem validateOperation_leaves_probe :
    (fsProfile appendOnlyDir []).find (probePath ["p"]) = none ∧
    (ValidateOperation (fsProfile appendOnlyDir []) ["p"] ["p", "core_user_1.dat"]
      ["p", "core_char_2.dat"]).1 = .ok () ∧
    (ValidateOperation (fsProfile appendOnlyDir []) ["p"] ["p", "core_user_1.dat"]
      ["p", "core_char_2.dat"]).2.find (probePath ["p"]) = some (plainFile []) ∧
    (fsProfile readOnlyDir [(probePath ["p"], plainFile [])]).find ["p"] =
      some (.dir ⟨true, false, false, 4096⟩) ∧
    (ValidateOperation (fsProfile readOnlyDir [(probePath ["p"], plainFile [])]) ["p"]
      ["p", "core_user_1.dat"] ["p", "core_char_2.dat"]).1 = .ok () := by
  decide

/-- C7, amended. For every call of `ValidateOperation`: no path other than the marker
file `.write_test` of the profile directory is created or modified; a call that fails
leaves the file system exactly as it was; after a call that succeeds the marker file does
not exist when the directory allows removals (a failed removal is dropped and leaves it
behind); and the call fails when the directory accepts no new entry and holds no marker
file already. -/
theorem validateOperation_frame (fs : FS) (profilePath sourceUserFile sourceCharFile : Path) :
    (ValidateOperation fs profilePath sourceUserFile sourceCharFile).2.denied = fs.denied ∧
    (∀ q, q ≠ probePath profilePath →
      (ValidateOperation fs profilePath sourceUserFile sourceCharFile).2.find q = fs.find q) ∧
    (∀ e, (ValidateOperation fs profilePath sourceUserFile sourceCharFile).1 = .error e →
      (ValidateOperation fs profilePath sourceUserFile sourceCharFile).2 = fs) ∧
    ((ValidateOperation fs profilePath sourceUserFile sourceCharFile).1 = .ok () →
      ∀ d, fs.find profilePath = some (.dir d) → d.allowRemove = true →
        (ValidateOperation fs profilePath sourceUserFile sourceCharFile).2.find
          (probePath profilePath) = none) ∧
    (fs.find (probePath profilePath) = none →
      (∀ d, fs.find profilePath = some (.dir d) → d.allowCreate = false) →
      ∃ e, (ValidateOperation fs profilePath sourceUserFile sourceCharFile).1 = .error e) := by
  have hcw := checkWritable_spec fs profilePath
  have hcreate : fs.find (probePath profilePath) = none →
      (∀ d, fs.find profilePath = some (.dir d) → d.allowCreate = false) →
      ∃ e, (checkWritable fs profilePath).1 = .error e := by
    intro hnone hdir
    have hparent : (probePath profilePath).dropLast = profilePath := by
      simp [probePath, Join]
    unfold checkWritable FS.Create FS.openTrunc
    simp only [hnone, hparent]
    by_cases hden : probePath profilePath ∈ fs.denied
    · simp [hden]
    · simp only [hden, if_false]
      rcases hp : fs.find profilePath with _ | n
      · simp
      · cases n with
        | file f => simp
        | dir d => simp [hdir d hp]
  unfold ValidateOperation
  rcases h1 : ValidateProfilePath fs profilePath with e1 | u1
  · simp
  · rcases h2 : ValidateSourceFile fs sourceUserFile with e2 | u2
    · simp
    · rcases h3 : ValidateSourceFile fs sourceCharFile with e3 | u3
      · simp
      · simp only
        rcases h4 : checkWritable fs profilePath with ⟨res, fs1⟩
        rw [h4] at hcw hcreate
        cases res with
        | error err =>
          refine ⟨hcw.1, hcw.2.1, fun e _ => hcw.2.2.1 err rfl, fun h => by simp at h, ?_⟩
          intro _ _
          exact ⟨_, rfl⟩
        | ok u =>
          refine ⟨hcw.1, hcw.2.1, fun e h => by simp at h, fun _ => hcw.2.2.2 rfl, ?_⟩
          intro hnone hdir
          obtain ⟨e, he⟩ := hcreate hnone hdir
          simp at he

/-- C7, amended, on a profile directory that accepts no new entry: the call fails and
nothing changed. -/
theorem validateOperation_frame_witness :
    (ValidateOperation (fsProfile readOnlyDir []) ["p"] ["p", "core_user_1.dat"]
      ["p", "core_char_2.dat"]).1 =
        .error "profile directory is not writable: cannot write to directory: permission denied" ∧
    (ValidateOperation (fsProfile readOnlyDir []) ["p"] ["p", "core_user_1.dat"]
      ["p", "core_char_2.dat"]).2 = fsProfile readOnlyDir [] :=
  ⟨by decide,
    (validateOperation_frame (fsProfile readOnlyDir []) ["p"] ["p", "core_user_1.dat"]
      ["p", "core_char_2.dat"]).2.2.1
      "profile directory is not writable: cannot write to directory: permission denied"
      (by decide)⟩

/-! ## Claims on the archive verifier -/

/-- Two messages that differ within the first `k` characters of their fixed parts are
different, whatever is appended to them. -/
theorem append_ne_of_take (k : Nat) (a b x y : String) (ha : k ≤ a.data.length)
    (hb : k ≤ b.data.length) (hne : a.data.take k ≠ b.data.take k) : a ++ x ≠ b ++ y := by
  intro h
  have hd := congrArg String.data h
  simp only [String.data_append] at hd
  have ht := congrArg (List.take k) hd
  rw [List.take_append_of_le_length ha, List.take_append_of_le_length hb] at ht
  exact hne ht

/-- C8. `VerifyBackup` checks in this order, stopping at the first failure: the file
exists, its size is not zero, it opens as a zip archive, the archive has a member. It
returns nil exactly when all four hold, and a missing file, an empty file, a file that is
no archive and an archive without member each get their own error. -/
theorem verifyBackup_checks (parse : Bytes → Option Archive) (fs : FS) (backupPath : Path) :
    (fs.Stat backupPath = .error .notExist →
      VerifyBackup parse fs backupPath =
        .error ("backup file does not exist: " ++ pathString backupPath)) ∧
    (∀ info, fs.Stat backupPath = .ok info → info.Size = 0 →
      VerifyBackup parse fs backupPath =
        .error ("backup file is empty: " ++ pathString backupPath)) ∧
    (∀ info err, fs.Stat backupPath = .ok info → info.Size ≠ 0 →
      OpenReader parse fs backupPath = .error err →
      VerifyBackup parse fs backupPath = .error ("backup file is not a valid zip: " ++ err)) ∧
    (∀ info, fs.Stat backupPath = .ok info → info.Size ≠ 0 →
      OpenReader parse fs backupPath = .ok [] →
      VerifyBackup parse fs backupPath = .error "backup zip file is empty") ∧
    (VerifyBackup parse fs backupPath = .ok () ↔
      ∃ info archive, fs.Stat backupPath = .ok info ∧ 0 < info.Size ∧
        OpenReader parse fs backupPath = .ok archive ∧ 0 < archive.length) ∧
    (∀ p1 p2 err : String,
      "backup file does not exist: " ++ p1 ≠ "backup file is empty: " ++ p2 ∧
      "backup file does not exist: " ++ p1 ≠ "backup file is not a valid zip: " ++ err ∧
      "backup file does not exist: " ++ p1 ≠ "backup zip file is empty" ∧
      "backup file is empty: " ++ p2 ≠ "backup file is not a valid zip: " ++ err ∧
      "backup file is empty: " ++ p2 ≠ "backup zip file is empty" ∧
      "backup file is not a valid zip: " ++ err ≠ "backup zip file is empty") := by
  refine ⟨?_, ?_, ?_, ?_, ?_, ?_⟩
  · intro h
    simp [VerifyBackup, h, OSErr.IsNotExist]
  · intro info h hs
    simp [VerifyBackup, h, hs]
  · intro info err h hs ho
    simp [VerifyBackup, h, hs, ho]
  · intro info h hs ho
    simp [VerifyBackup, h, hs, ho]
  · unfold VerifyBackup
    rcases hst : fs.Stat backupPath with e | info
    · simp only
      constructor
      · intro h
        split at h <;> cases h
      · rintro ⟨info, archive, h, _⟩
        cases h
    · simp only
      by_cases hs : info.Size = 0
      · simp [hs]
      · rcases ho : OpenReader parse fs backupPath with err | archive
        · simp [hs]
        · by_cases hl : archive.length = 0
          · simp [hs, hl]
          · simp only [hs, hl, if_false, true_iff]
            exact ⟨info, archive, rfl, Nat.pos_of_ne_zero hs, rfl, Nat.pos_of_ne_zero hl⟩
  · intro p1 p2 err
    have h4 : "backup zip file is empty" = "backup zip file is empty" ++ "" := by decide
    refine ⟨?_, ?_, ?_, ?_, ?_, ?_⟩
    · exact append_ne_of_take 13 _ _ _ _ (by decide) (by decide) (by decide)
    · exact append_ne_of_take 13 _ _ _ _ (by decide) (by decide) (by decide)
    · rw [h4]
      exact append_ne_of_take 8 _ _ _ _ (by decide) (by decide) (by decide)
    · exact append_ne_of_take 16 _ _ _ _ (by decide) (by decide) (by decide)
    · rw [h4]
      exact append_ne_of_take 8 _ _ _ _ (by decide) (by decide) (by decide)
    · rw [h4]
      exact append_ne_of_take 8 _ _ _ _ (by decide) (by decide) (by decide)

/-- C8, on an empty file: the second check fails, before the file is opened. -/
theorem verifyBackup_checks_witness :
    VerifyBackup (fun _ => none) fsEmptyBackup ["backup", "a.zip"] =
      .error ("backup file is empty: " ++ pathString ["backup", "a.zip"]) :=
  (verifyBackup_checks (fun _ => none) fsEmptyBackup ["backup", "a.zip"]).2.1
    (plainFile []) (by decide) (by decide)

/-! ## Claims on the archiver -/

theorem files_length (rel : Path) (t : Tree) : (Tree.files rel t).length = t.fileCount := by
  induction t generalizing rel with
  | nil => rfl
  | file name f rest ih => simp [Tree.files, Tree.fileCount, ih, Nat.add_comm]
  | dir name d sub rest ihs ihr => simp [Tree.files, Tree.fileCount, ihs, ihr]

/-- A walk that ends without error has appended one member per regular file, in walk
order, named by the relative path and holding the compressed bytes of the file. -/
theorem walkEntries_ok (deflate : Bytes → Bytes) (rel : Path) (t : Tree)
    (archive out : Archive) (h : walkEntries deflate rel t archive = (.ok (), out)) :
    out = archive ++ (Tree.files rel t).map
      (fun pb => ⟨pathString pb.1, Deflate, deflate pb.2⟩) := by
  induction t generalizing rel archive out with
  | nil =>
    simp only [walkEntries, Prod.mk.injEq, true_and] at h
    simp [Tree.files, h]
  | file name f rest ih =>
    unfold walkEntries at h
    rcases ha : addFile deflate (rel ++ [name]) f archive with ⟨res, a1⟩
    rw [ha] at h
    cases res with
    | error err => simp at h
    | ok u =>
      simp only at h
      have h1 := ih rel a1 out h
      unfold addFile at ha
      by_cases hr : f.readable = true
      · by_cases hs : f.sound = true
        · simp only [hr, hs, Bool.not_true, Bool.false_eq_true, if_false, Prod.mk.injEq,
            true_and] at ha
          rw [h1, ← ha]
          simp [Tree.files]
        · simp [hr, hs] at ha
      · simp [hr] at ha
  | dir name d sub rest ihs ihr =>
    unfold walkEntries at h
    by_cases hl : d.listable = true
    · simp only [hl, Bool.not_true, Bool.false_eq_true, if_false] at h
      rcases hw : walkEntries deflate (rel ++ [name]) sub archive with ⟨res, a1⟩
      rw [hw] at h
      cases res with
      | error err => simp at h
      | ok u =>
        simp only at h
        rw [ihr rel a1 out h, ihs (rel ++ [name]) archive a1 hw]
        simp [Tree.files]
    · simp [hl] at h

/-- C9. For every directory tree, a successful `CreateBackup` leaves at the returned path
an archive with exactly one member per regular file of the tree, `N` members for `N`
regular files at any depth and none for a directory, each named by the path of the file
relative to the walked directory and holding bytes that decompress to the bytes of the
file (for a decompressor that inverts the compressor). -/
theorem createBackup_roundtrip (env : BackupEnv) (inflate : Bytes → Option Bytes)
    (d : DirNode) (entries : Tree) (profileName : String) (backupPath : Path)
    (hrt : ∀ b, inflate (env.deflate b) = some b)
    (h : (CreateBackup env (.dir d entries) profileName).result = .ok backupPath) :
    ∃ archive, (CreateBackup env (.dir d entries) profileName).written =
        some (backupPath, archive) ∧
      archive.length = entries.fileCount ∧
      archive.map (fun m => (m.Name, inflate m.stored)) =
        (Tree.files [] entries).map (fun pb => (pathString pb.1, some pb.2)) := by
  revert h
  unfold CreateBackup
  rcases hm : env.mkdirAll with _ | e1
  · rcases hc : env.create with _ | e2
    · rcases hw : walk env.deflate (.dir d entries) with ⟨res, archive⟩
      cases res with
      | error err =>
        intro h
        simp at h
      | ok u =>
        rcases hcl : env.close with _ | e3
        · intro h
          simp only [Except.ok.injEq] at h
          refine ⟨archive, by simp only [h], ?_⟩
          unfold walk at hw
          by_cases hl : d.listable = true
          · simp only [hl, Bool.not_true, Bool.false_eq_true, if_false] at hw
            have hout := walkEntries_ok env.deflate [] entries [] archive hw
            rw [hout]
            constructor
            · simp [files_length]
            · simp [List.map_map, Function.comp, hrt]
          · simp [hl] at hw
        · intro h
          simp at h
    · intro h
      simp at h
  · intro h
    simp at h

/-- C9, on a tree with three files at three depths and an empty directory. -/
theorem createBackup_roundtrip_witness :
    (CreateBackup exampleBackupEnv (.dir ⟨true, true, true, 4096⟩ exampleTree)
      "Default").result = .ok ["backup", "settings_Default_20240309-0705.zip"] ∧
    ∃ archive, (CreateBackup exampleBackupEnv (.dir ⟨true, true, true, 4096⟩ exampleTree)
        "Default").written =
        some (["backup", "settings_Default_20240309-0705.zip"], archive) ∧
      archive.length = exampleTree.fileCount ∧
      archive.map (fun m => (m.Name, some m.stored)) =
        (Tree.files [] exampleTree).map (fun pb => (pathString pb.1, some pb.2)) :=
  ⟨by decide, createBackup_roundtrip exampleBackupEnv some ⟨true, true, true, 4096⟩
    exampleTree "Default" _ (fun _ => rfl) (by decide)⟩

/-! ## Claims on the identity parser -/

/-- C10. For every non-empty string `d` of decimal digits, leading zeros included,
`ExtractUserID ("core_user_" ++ d ++ ".dat")` succeeds and returns `d` itself, and
`ExtractCharacterID ("core_char_" ++ d ++ ".dat")` returns `d`; and two file names of one
kind that yield the same id are the same name. -/
theorem extractID_verbatim (d : String) (hne : d.toList ≠ [])
    (hd : ∀ c ∈ d.toList, c.isDigit = true) :
    ExtractUserID ("core_user_" ++ d ++ ".dat") = .ok d ∧
    ExtractCharacterID ("core_char_" ++ d ++ ".dat") = .ok d ∧
    (∀ f1 f2 id, ExtractUserID f1 = .ok id → ExtractUserID f2 = .ok id → f1 = f2) ∧
    (∀ f1 f2 id, ExtractCharacterID f1 = .ok id → ExtractCharacterID f2 = .ok id →
      f1 = f2) := by
  have inj : ∀ (k : Kind) (f1 f2 id : String), parseIdentity f1 k = .ok id →
      parseIdentity f2 k = .ok id → f1 = f2 := by
    intro k f1 f2 id h1 h2
    have s1 := (parseIdentity_ok_shape h1).2.2
    have s2 := (parseIdentity_ok_shape h2).2.2
    exact String.ext (s1.trans s2.symm)
  refine ⟨?_, ?_, inj .user, inj .character⟩
  · simp [ExtractUserID, userIDRegex, findStringSubmatch_digits "core_user_" d hne hd]
  · simp [ExtractCharacterID, characterIDRegex,
      findStringSubmatch_digits "core_char_" d hne hd]

/-- C10, on the examples: `core_user_12345.dat` yields `12345`, and the zeros of
`core_char_007.dat` are kept. -/
theorem extractID_verbatim_witness :
    ExtractUserID "core_user_12345.dat" = .ok "12345" ∧
    ExtractCharacterID "core_char_007.dat" = .ok "007" :=
  ⟨(extractID_verbatim "12345" (by decide) (by decide)).1,
    (extractID_verbatim "007" (by decide) (by decide)).2.1⟩

/-- The extractors return an id or their own error, nothing else. -/
theorem parseIdentity_ok_or_error (filename : String) (k : Kind) :
    (∃ id, parseIdentity filename k = .ok id) ∨
      parseIdentity filename k =
        .error ((match k with
          | .user => "invalid user filename format: "
          | .character => "invalid character filename format: ") ++ filename) := by
  cases k <;>
    simp only [parseIdentity, ExtractUserID, ExtractCharacterID] <;>
    split <;> simp

/-- C11. A file name that is not `core_user_`, then one or more decimal digits, then
`.dat`, with nothing before or after and in this very case, gets an error from
`ExtractUserID` and no id; likewise `ExtractCharacterID` with `core_char_`. -/
theorem extractID_rejects (filename : String) :
    ((¬ ∃ d : String, d.toList ≠ [] ∧ (∀ c ∈ d.toList, c.isDigit = true) ∧
        filename = "core_user_" ++ d ++ ".dat") →
      ExtractUserID filename = .error ("invalid user filename format: " ++ filename)) ∧
    ((¬ ∃ d : String, d.toList ≠ [] ∧ (∀ c ∈ d.toList, c.isDigit = true) ∧
        filename = "core_char_" ++ d ++ ".dat") →
      ExtractCharacterID filename =
        .error ("invalid character filename format: " ++ filename)) := by
  have key : ∀ k : Kind, (¬ ∃ d : String, d.toList ≠ [] ∧ (∀ c ∈ d.toList, c.isDigit = true) ∧
      filename = k.pattern ++ d ++ ".dat") → ¬ ∃ id, parseIdentity filename k = .ok id := by
    intro k hno ⟨id, hid⟩
    obtain ⟨h1, h2, h3⟩ := parseIdentity_ok_shape hid
    refine hno ⟨id, h1, h2, String.ext ?_⟩
    simpa [String.toList, String.data_append, List.append_assoc] using h3
  constructor
  · intro hno
    rcases parseIdentity_ok_or_error filename .user with h | h
    · exact absurd h (key .user hno)
    · exact h
  · intro hno
    rcases parseIdentity_ok_or_error filename .character with h | h
    · exact absurd h (key .character hno)
    · exact h

/-- What a name of the accepted shape looks like from outside: it starts with the
literal, ends with `.dat`, and is as long as its three parts. -/
theorem shape_facts {lit d f : String} (h : f = lit ++ d ++ ".dat") :
    lit.toList.isPrefixOf f.toList = true ∧ ".dat".toList.isSuffixOf f.toList = true ∧
      f.toList.length = lit.toList.length + d.toList.length + 4 := by
  subst h
  have hl : (lit ++ d ++ ".dat").toList = lit.toList ++ (d.toList ++ ".dat".toList) := by
    simp [String.toList, String.data_append]
  rw [hl]
  refine ⟨?_, ?_, ?_⟩
  · rw [List.isPrefixOf_iff_prefix]
    exact List.prefix_append _ _
  · rw [List.isSuffixOf_iff_suffix, ← List.append_assoc]
    exact List.suffix_append _ _
  · simp only [List.length_append]
    have : ".dat".toList.length = 4 := by decide
    omega

/-- C11, on the examples: a wrong extension, upper case, no digit, a character before the
literal and characters after `.dat` are all rejected. -/
theorem extractID_rejects_witness :
    ExtractUserID "core_user_12345.bak" =
      .error ("invalid user filename format: " ++ "core_user_12345.bak") ∧
    ExtractUserID "CORE_USER_1.dat" =
      .error ("invalid user filename format: " ++ "CORE_USER_1.dat") ∧
    ExtractUserID "core_user_.dat" =
      .error ("invalid user filename format: " ++ "core_user_.dat") ∧
    ExtractUserID "xcore_user_1.dat" =
      .error ("invalid user filename format: " ++ "xcore_user_1.dat") ∧
    ExtractUserID "core_user_1.dat.bak" =
      .error ("invalid user filename format: " ++ "core_user_1.dat.bak") ∧
    ExtractCharacterID "core_user_1.dat" =
      .error ("invalid character filename format: " ++ "core_user_1.dat") := by
  refine ⟨?_, ?_, ?_, ?_, ?_, ?_⟩
  · exact (extractID_rejects "core_user_12345.bak").1
      (fun ⟨_, _, _, h⟩ => absurd (shape_facts h).2.1 (by decide))
  · exact (extractID_rejects "CORE_USER_1.dat").1
      (fun ⟨_, _, _, h⟩ => absurd (shape_facts h).1 (by decide))
  · refine (extractID_rejects "core_user_.dat").1 (fun ⟨d, hne, _, h⟩ => hne ?_)
    have hlen := (shape_facts h).2.2
    have h14 : "core_user_.dat".toList.length = 14 := by decide
    have h10 : "core_user_".toList.length = 10 := by decide
    rw [h14, h10] at hlen
    exact List.length_eq_zero.1 (by omega)
  · exact (extractID_rejects "xcore_user_1.dat").1
      (fun ⟨_, _, _, h⟩ => absurd (shape_facts h).1 (by decide))
  · exact (extractID_rejects "core_user_1.dat.bak").1
      (fun ⟨_, _, _, h⟩ => absurd (shape_facts h).2.1 (by decide))
  · exact (extractID_rejects "core_user_1.dat").2
      (fun ⟨_, _, _, h⟩ => absurd (shape_facts h).1 (by decide))

/-! ## Claims on the directory scanner -/

/-- The loop of the scanners keeps, in order, the entries that are no directory and whose
name the extractor accepts; the name extractor has no say. -/
theorem listLoop_eq {ρ : Type} (k : Kind) (tryName : FS → Path → String × Option String)
    (mk : String → String → Path → ρ) (fs : FS) (profilePath : Path)
    (entries : List DirEntry) :
    listLoop k.pattern (fun n => parseIdentity n k) tryName mk fs profilePath entries =
      entries.filterMap (fun e =>
        if e.IsDir then none
        else match parseIdentity e.Name k with
          | .ok id => some (mk id (tryName fs (Join profilePath e.Name)).1
              (Join profilePath e.Name))
          | .error _ => none) := by
  induction entries with
  | nil => rfl
  | cons e rest ih =>
    rw [listLoop, List.filterMap_cons, ih]
    cases hd : e.IsDir
    · rcases hp : parseIdentity e.Name k with err | id
      · by_cases hgl : (HasPrefix e.Name k.pattern && HasSuffix e.Name ".dat") = true
        · simp [hgl, hp]
        · simp [hgl, hp]
      · have hg := parseIdentity_ok_glob hp
        simp [hg.1, hg.2, hp]
    · simp

theorem readDir_ok_validate {fs : FS} {p : Path} {entries : List DirEntry}
    (h : fs.ReadDir p = .ok entries) : ValidateProfilesDirectory fs p = .ok () := by
  unfold FS.ReadDir at h
  unfold ValidateProfilesDirectory
  rcases hs : fs.Stat p with e | n
  · rw [hs] at h; cases h
  · cases n with
    | file f => rw [hs] at h; cases h
    | dir d => simp [Node.IsDir]

theorem tryExtractUserName_name (fs : FS) (filePath : Path) :
    (TryExtractUserName fs filePath).1 = "" := by
  unfold TryExtractUserName
  split <;> rfl

theorem tryExtractCharacterName_name (fs : FS) (filePath : Path) :
    (TryExtractCharacterName fs filePath).1 = "" := by
  unfold TryExtractCharacterName
  split <;> rfl

/-- C12. For a profile directory with listing `entries`, `ListUserFiles` returns, in the
order of the listing, one record for each entry that is no directory and whose name
`ExtractUserID` accepts, and nothing else: `ID` is the extracted id, `Path` the profile
path joined with the name, and `Name` the empty string, whether or not the file can be
read. Likewise `ListCharacterFiles` with `ExtractCharacterID`. -/
theorem listFiles_records (fs : FS) (profilePath : Path) (entries : List DirEntry)
    (hd : fs.ReadDir profilePath = .ok entries) :
    ListUserFiles fs profilePath = .ok (entries.filterMap (fun e =>
      if e.IsDir then none
      else match ExtractUserID e.Name with
        | .ok id => some ⟨id, "", Join profilePath e.Name⟩
        | .error _ => none)) ∧
    ListCharacterFiles fs profilePath = .ok (entries.filterMap (fun e =>
      if e.IsDir then none
      else match ExtractCharacterID e.Name with
        | .ok id => some ⟨id, "", Join profilePath e.Name⟩
        | .error _ => none)) := by
  have hv := readDir_ok_validate hd
  constructor
  · have hl := listLoop_eq .user TryExtractUserName UserFile.mk fs profilePath entries
    simp only [tryExtractUserName_name] at hl
    simp only [ListUserFiles, hv, hd]
    exact congrArg Except.ok hl
  · have hl := listLoop_eq .character TryExtractCharacterName CharacterFile.mk fs profilePath
      entries
    simp only [tryExtractCharacterName_name] at hl
    simp only [ListCharacterFiles, hv, hd]
    exact congrArg Except.ok hl

/-- C12, on a profile with a subdirectory, an unreadable user file, a rejected name and
other files: two user records, the unreadable file among them, and one character
record. -/
theorem listFiles_records_witness :
    ListUserFiles fsMixed ["p"] =
      .ok [⟨"001", "", ["p", "core_user_001.dat"]⟩, ⟨"2", "", ["p", "core_user_2.dat"]⟩] ∧
    ListCharacterFiles fsMixed ["p"] = .ok [⟨"9", "", ["p", "core_char_9.dat"]⟩] ∧
    (TryExtractUserName fsMixed ["p", "core_user_2.dat"]).2 =
      some "failed to read file: permission denied" := by
  have h := listFiles_records fsMixed ["p"]
    [⟨"core_char_9.dat", false⟩, ⟨"core_user_001.dat", false⟩, ⟨"core_user_2.dat", false⟩,
      ⟨"core_user_7.dat", true⟩, ⟨"core_user_abc.dat", false⟩, ⟨"notes.txt", false⟩]
    (by decide)
  refine ⟨h.1.trans (by decide), h.2.trans (by decide), by decide⟩

/-! ## Claims on running the replacers twice -/

theorem store_self {p : Path} {n : Node} {l : List (Path × Node)} (h : lookup p l = some n) :
    store p n l = l := by
  induction l with
  | nil => simp [lookup] at h
  | cons a l ih =>
    obtain ⟨q, m⟩ := a
    by_cases hq : q = p
    · subst hq
      simp only [lookup, if_true, Option.some.injEq] at h
      simp [store, h]
    · simp only [lookup, hq, if_false] at h
      simp [store, hq, ih h]

/-- Writing to a writable file the bytes it holds already changes nothing. -/
theorem writeFile_noop {fs : FS} {p : Path} {f : FileNode} {data : Bytes}
    (hden : p ∉ fs.denied) (hf : fs.find p = some (.file f)) (hw : f.writable = true)
    (hdata : f.data = data) : fs.WriteFile p data = (.ok (), fs) := by
  subst hdata
  obtain ⟨d, r, w, s⟩ := f
  simp only at hw
  subst hw
  unfold FS.WriteFile FS.openTrunc
  have hst : store p (.file ⟨d, r, true, s⟩) fs.nodes = fs.nodes := store_self hf
  simp [hden, hf, hst]

theorem children_store {q : Path} {n : Node} {l : List (Path × Node)}
    (h : lookup q l = some n) (n2 : Node) (hk : n2.IsDir = n.IsDir) (dir : Path) :
    children dir (store q n2 l) = children dir l := by
  induction l with
  | nil => simp [lookup] at h
  | cons a l ih =>
    obtain ⟨r, m⟩ := a
    by_cases hr : r = q
    · subst hr
      simp only [lookup, if_true, Option.some.injEq] at h
      subst h
      simp [store, children, List.filterMap_cons, hk]
    · simp only [lookup, hr, if_false] at h
      have ih2 := ih h
      unfold children at ih2 ⊢
      simp [store, hr, List.filterMap_cons, ih2]

/-- Overwriting a path that exists leaves every directory listing as it was. -/
theorem writeFile_readDir {fs : FS} {q : Path} (hq : fs.find q ≠ none) (data : Bytes)
    (dir : Path) : (fs.WriteFile q data).2.ReadDir dir = fs.ReadDir dir := by
  unfold FS.WriteFile FS.openTrunc
  by_cases hden : q ∈ fs.denied
  · simp [hden]
  · simp only [hden, if_false]
    rcases hf : fs.find q with _ | n
    · exact absurd hf hq
    · cases n with
      | dir d => rfl
      | file f =>
        cases hw : f.writable
        · simp [hw]
        · simp only [hw, Bool.not_false, Bool.true_or, Bool.and_self, if_true]
          unfold FS.ReadDir FS.Stat
          simp only [FS.find, lookup_store]
          by_cases hdq : dir = q
          · subst hdq
            have hf2 : lookup dir fs.nodes = some (.file f) := hf
            by_cases hden2 : dir ∈ fs.denied <;> simp [hf2, hden2]
          · have hch := children_store hf (.file { f with data := data }) rfl dir
            rw [hw] at hch
            simp only [hdq, if_false, hch]

theorem writeFile_find_ne_none {fs : FS} {r : Path} (hr : fs.find r ≠ none) (q : Path)
    (data : Bytes) : (fs.WriteFile q data).2.find r ≠ none := by
  have hspec := writeFile_spec fs q data
  by_cases hrq : r = q
  · subst hrq
    rcases hres : (fs.WriteFile r data).1 with e | u
    · rw [hspec.2.2.1 e hres]; exact hr
    · have hc := hspec.2.2.2 hres
      unfold FS.content at hc
      intro hnone
      rw [hnone] at hc
      simp at hc
  · rw [hspec.2.1 r hrq]; exact hr

theorem lookup_ne_none_of_mem {p : Path} {n : Node} {l : List (Path × Node)}
    (h : (p, n) ∈ l) : lookup p l ≠ none := by
  induction l with
  | nil => simp at h
  | cons a l ih =>
    obtain ⟨q, m⟩ := a
    by_cases hq : q = p
    · simp [lookup, hq]
    · simp only [lookup, hq, if_false]
      rcases List.mem_cons.1 h with h1 | h1
      · simp only [Prod.mk.injEq] at h1
        exact absurd h1.1.symm hq
      · exact ih h1

/-- Every entry of a directory listing names an existing path. -/
theorem readDir_mem_find {fs : FS} {p : Path} {entries : List DirEntry}
    (h : fs.ReadDir p = .ok entries) {e : DirEntry} (he : e ∈ entries) :
    fs.find (Join p e.Name) ≠ none := by
  unfold FS.ReadDir at h
  split at h
  · cases h
  · cases h
  · split at h
    · simp only [Except.ok.injEq] at h
      subst h
      have hperm := List.perm_insertionSort
        (fun a b : DirEntry => charsLE a.Name.toList b.Name.toList = true) (children p fs.nodes)
      have he2 : e ∈ children p fs.nodes := hperm.mem_iff.1 he
      unfold children at he2
      obtain ⟨⟨q, n⟩, hmem, hmap⟩ := List.mem_filterMap.1 he2
      rcases hc : childName p q with _ | name
      · simp [hc] at hmap
      · simp only [hc, Option.map_some', Option.some.injEq] at hmap
        subst hmap
        have hq := childName_eq_some hc
        subst hq
        exact lookup_ne_none_of_mem hmem
    · cases h

/-- A loop whose targets hold the source bytes already, in writable files, counts them
and changes nothing. -/
theorem replaceLoop_noop (pfx : String) (prof : Path) (src : String) (data : Bytes)
    (es : List DirEntry) (fs : FS) (c : Nat)
    (h : ∀ e ∈ es, isTarget pfx src e = true → Join prof e.Name ∉ fs.denied ∧
      ∃ f : FileNode, fs.find (Join prof e.Name) = some (.file f) ∧ f.writable = true ∧
        f.data = data) :
    replaceLoop pfx prof src data es fs c =
      (.ok (c + (es.filter (isTarget pfx src)).length), fs) := by
  induction es generalizing c with
  | nil => rfl
  | cons e rest ih =>
    rw [replaceLoop_cons]
    by_cases ht : isTarget pfx src e = true
    · obtain ⟨hden, f, hf, hw, hdata⟩ := h e (List.mem_cons_self _ _) ht
      rw [if_pos ht, writeFile_noop hden hf hw hdata, List.filter_cons_of_pos ht]
      simp only
      rw [ih (c + 1) (fun x hx hxt => h x (List.mem_cons_of_mem _ hx) hxt), List.length_cons]
      congr 2
      omega
    · rw [if_neg ht, List.filter_cons_of_neg ht]
      exact ih c (fun x hx hxt => h x (List.mem_cons_of_mem _ hx) hxt)

/-- After a loop that ended without error every target is a writable file that holds the
source bytes. -/
theorem replaceLoop_ok_node (pfx : String) (prof : Path) (src : String) (data : Bytes)
    (es : List DirEntry) (fs : FS) (c n : Nat) (fs2 : FS)
    (h : replaceLoop pfx prof src data es fs c = (.ok n, fs2)) :
    ∀ e ∈ es, isTarget pfx src e = true → Join prof e.Name ∉ fs2.denied ∧
      ∃ f : FileNode, fs2.find (Join prof e.Name) = some (.file f) ∧ f.writable = true ∧
        f.data = data := by
  intro e he ht
  have hcontent := (replaceLoop_ok pfx prof src data es fs c n fs2 h).2 e he ht
  have hstable := replaceLoop_outcome_stable pfx prof src data es fs c n fs2 h e.Name data
  have hnoerr : (fs.WriteFile (Join prof e.Name) data).1 = .ok () := by
    clear hcontent hstable
    induction es generalizing fs c with
    | nil => exact absurd he (List.not_mem_nil e)
    | cons x rest ih =>
      rw [replaceLoop_cons] at h
      by_cases hxt : isTarget pfx src x = true
      · rw [if_pos hxt] at h
        have hst := writeFile_outcome_stable fs (Join prof x.Name) (Join prof e.Name) data data
        rcases hw : fs.WriteFile (Join prof x.Name) data with ⟨r, fs1⟩
        rw [hw] at h hst
        cases r with
        | error err => simp at h
        | ok u =>
          rcases List.mem_cons.1 he with hex | her
          · subst hex
            rw [hw]
          · rw [← hst rfl (join_ne_dropLast_join prof x.Name e.Name)]
            exact ih fs1 (c + 1) h her
      · rw [if_neg hxt] at h
        rcases List.mem_cons.1 he with hex | her
        · subst hex
          exact absurd ht hxt
        · exact ih fs c h her
  rw [hnoerr, writeFile_outcome] at hstable
  unfold FS.content at hcontent
  rcases hf : fs2.find (Join prof e.Name) with _ | node
  · rw [hf] at hcontent
    simp at hcontent
  · cases node with
    | dir d =>
      rw [hf] at hcontent
      simp at hcontent
    | file f =>
      rw [hf] at hcontent hstable
      simp only [Option.some.injEq] at hcontent
      unfold writeOutcome at hstable
      by_cases hden : Join prof e.Name ∈ fs2.denied
      · simp [hden] at hstable
      · refine ⟨hden, f, rfl, ?_, hcontent⟩
        cases hwr : f.writable
        · simp [hden, hwr] at hstable
        · rfl

/-- A loop whose targets all exist leaves every directory listing as it was. -/
theorem replaceLoop_readDir (pfx : String) (prof : Path) (src : String) (data : Bytes)
    (es : List DirEntry) (fs : FS) (c : Nat)
    (h : ∀ e ∈ es, isTarget pfx src e = true → fs.find (Join prof e.Name) ≠ none)
    (dir : Path) :
    (replaceLoop pfx prof src data es fs c).2.ReadDir dir = fs.ReadDir dir := by
  induction es generalizing fs c with
  | nil => rfl
  | cons e rest ih =>
    rw [replaceLoop_cons]
    by_cases ht : isTarget pfx src e = true
    · rw [if_pos ht]
      have hex := h e (List.mem_cons_self _ _) ht
      have hrd := writeFile_readDir hex data dir
      have hne := fun (x : DirEntry) (hx : x ∈ rest) (hxt : isTarget pfx src x = true) =>
        writeFile_find_ne_none (h x (List.mem_cons_of_mem _ hx) hxt) (Join prof e.Name) data
      have hspec := (writeFile_spec fs (Join prof e.Name) data).2.2.1
      rcases hw : fs.WriteFile (Join prof e.Name) data with ⟨r, fs1⟩
      rw [hw] at hrd hne hspec
      cases r with
      | error err =>
        simp only at hspec ⊢
        rw [hspec err rfl]
      | ok u =>
        simp only
        rw [ih fs1 (c + 1) hne]
        exact hrd
    · rw [if_neg ht]
      exact ih fs c (fun x hx hxt => h x (List.mem_cons_of_mem _ hx) hxt)

theorem base_join (p : Path) (name : String) : Base (Join p name) = name := by
  simp [Base, Join]

/-- A name cannot start with both `core_user_` and `core_char_`. -/
theorem user_pattern_not_character {name : String} (h : HasPrefix name "core_user_" = true) :
    HasPrefix name "core_char_" = false := by
  unfold HasPrefix at h ⊢
  rw [List.isPrefixOf_iff_prefix] at h
  cases hc : "core_char_".toList.isPrefixOf name.toList
  · rfl
  · rw [List.isPrefixOf_iff_prefix] at hc
    have hp := List.prefix_of_prefix_length_le h hc (by decide)
    have heq := hp.eq_of_length (by decide)
    exact absurd heq (by decide)

theorem readFile_congr {fs fs2 : FS} {p : Path} (hden : fs2.denied = fs.denied)
    (hfind : fs2.find p = fs.find p) : fs2.ReadFile p = fs.ReadFile p := by
  unfold FS.ReadFile FS.Open FS.Stat
  rw [hden, hfind]

/-- The file system a replacer leaves, once the source is read and the directory listed,
is the one its loop leaves. -/
theorem replaceFiles_snd {pfx readMsg noneMsg : String} {fs : FS} {prof source : Path}
    {content : Bytes} {entries : List DirEntry} (hr : fs.ReadFile source = .ok content)
    (hd : fs.ReadDir prof = .ok entries) :
    (replaceFiles pfx readMsg noneMsg fs prof source).2 =
      (replaceLoop pfx prof (Base source) content entries fs 0).2 := by
  rw [replaceFiles_run hr hd]
  rcases replaceLoop pfx prof (Base source) content entries fs 0 with ⟨res, fs1⟩
  cases res with
  | error e => rfl
  | ok c => by_cases hc : c = 0 <;> simp [hc]

/-- A replacer that finds its targets holding the source bytes already, in writable
files, returns their number and changes nothing. -/
theorem replaceFiles_noop {pfx readMsg noneMsg : String} {fs : FS} {prof source : Path}
    {content : Bytes} {entries : List DirEntry} {n : Nat}
    (hr : fs.ReadFile source = .ok content) (hd : fs.ReadDir prof = .ok entries)
    (hn : n = 0 + (entries.filter (isTarget pfx (Base source))).length) (hn0 : n ≠ 0)
    (h : ∀ e ∈ entries, isTarget pfx (Base source) e = true →
      Join prof e.Name ∉ fs.denied ∧
      ∃ f : FileNode, fs.find (Join prof e.Name) = some (.file f) ∧ f.writable = true ∧
        f.data = content) :
    replaceFiles pfx readMsg noneMsg fs prof source = (.ok n, fs) := by
  rw [replaceFiles_run hr hd, replaceLoop_noop pfx prof (Base source) content entries fs 0 h,
    ← hn]
  simp [hn0]

theorem isTarget_iff (pfx src : String) (e : DirEntry) :
    isTarget pfx src e = true ↔
      e.IsDir = false ∧ HasPrefix e.Name pfx = true ∧ HasSuffix e.Name ".dat" = true ∧
        e.Name ≠ src := by
  simp [isTarget, and_assoc]

/-- C13. Let the chosen sources be files of the profile, the user source one whose name
`ExtractUserID` accepts (as every record of `ListUserFiles` is), and let
`ReplaceUserFiles` followed by `ReplaceCharacterFiles` succeed. Then the same two calls
run again on the result succeed, reach the same counts of replaced files and leave the
file system, every file's content included, exactly as it was after the first run. -/
theorem replace_twice (fs0 fs1 fs2 : FS) (profilePath : Path) (uname cname : String)
    (hu : ∃ id, ExtractUserID uname = .ok id)
    (h1 : ReplaceUserFiles fs0 profilePath (Join profilePath uname) = (.ok (), fs1))
    (h2 : ReplaceCharacterFiles fs1 profilePath (Join profilePath cname) = (.ok (), fs2)) :
    ReplaceUserFiles fs2 profilePath (Join profilePath uname) = (.ok (), fs2) ∧
    ReplaceCharacterFiles fs2 profilePath (Join profilePath cname) = (.ok (), fs2) ∧
    replacedCount .user fs2 profilePath (Join profilePath uname) =
      replacedCount .user fs0 profilePath (Join profilePath uname) ∧
    replacedCount .character fs2 profilePath (Join profilePath cname) =
      replacedCount .character fs1 profilePath (Join profilePath cname) := by
  obtain ⟨n, hn⟩ := dropCount_ok h1
  obtain ⟨m, hm⟩ := dropCount_ok h2
  obtain ⟨cu, es0, hr0, hd0, hl0, hn0⟩ := replaceFiles_ok hn
  obtain ⟨cc, es1, hr1, hd1, hl1, hm0⟩ := replaceFiles_ok hm
  rw [base_join] at hl0 hl1
  -- the listing is the same before, between and after the two calls
  have hd01 : fs1.ReadDir profilePath = fs0.ReadDir profilePath := by
    have h := replaceLoop_readDir "core_user_" profilePath uname cu es0 fs0 0
      (fun e he _ => readDir_mem_find hd0 he) profilePath
    rw [hl0] at h
    exact h
  have hes : es1 = es0 := by
    rw [hd01, hd0] at hd1
    simp only [Except.ok.injEq] at hd1
    exact hd1.symm
  subst hes
  have hd2 : fs2.ReadDir profilePath = .ok es1 := by
    have h := replaceLoop_readDir "core_char_" profilePath cname cc es1 fs1 0
      (fun e he _ => readDir_mem_find hd1 he) profilePath
    rw [hl1] at h
    exact h.trans hd1
  -- what each loop leaves alone
  have fr0 := replaceLoop_frame "core_user_" profilePath uname cu es1 fs0 0
  rw [hl0] at fr0
  have fr1 := replaceLoop_frame "core_char_" profilePath cname cc es1 fs1 0
  rw [hl1] at fr1
  have hnotchar : ∀ name : String, HasPrefix name "core_user_" = true → ∀ e ∈ es1,
      isTarget "core_char_" cname e = true → Join profilePath name ≠ Join profilePath e.Name := by
    intro name hp e _ ht heq
    have hname := join_injective heq
    subst hname
    rw [isTarget_iff, user_pattern_not_character hp] at ht
    simp at ht
  obtain ⟨idu, hidu⟩ := hu
  have hidu2 : parseIdentity uname .user = .ok idu := hidu
  have hgu := parseIdentity_ok_glob hidu2
  -- the user source is read with the same bytes in the second run
  have hsu1 : fs1.find (Join profilePath uname) = fs0.find (Join profilePath uname) :=
    fr0.2 _ (fun e _ ht heq => by
      have hname := join_injective heq
      rw [isTarget_iff] at ht
      exact ht.2.2.2 hname.symm)
  have hsu2 : fs2.find (Join profilePath uname) = fs1.find (Join profilePath uname) :=
    fr1.2 _ (hnotchar uname hgu.1)
  have hr2u : fs2.ReadFile (Join profilePath uname) = .ok cu := by
    rw [readFile_congr (fr1.1.trans fr0.1) (hsu2.trans hsu1)]
    exact hr0
  -- the user targets still hold those bytes
  have hnodes1 := replaceLoop_ok_node "core_user_" profilePath uname cu es1 fs0 0 n fs1 hl0
  have hnodes2 : ∀ e ∈ es1, isTarget "core_user_" uname e = true →
      Join profilePath e.Name ∉ fs2.denied ∧
      ∃ f : FileNode, fs2.find (Join profilePath e.Name) = some (.file f) ∧
        f.writable = true ∧ f.data = cu := by
    intro e he ht
    obtain ⟨hden, f, hf, hw, hdt⟩ := hnodes1 e he ht
    have hp := ((isTarget_iff _ _ _).1 ht).2.1
    refine ⟨by rw [fr1.1]; exact hden, f, ?_, hw, hdt⟩
    rw [fr1.2 _ (hnotchar e.Name hp)]
    exact hf
  have hcount0 := (replaceLoop_ok "core_user_" profilePath uname cu es1 fs0 0 n fs1 hl0).1
  have run2u : replaceFiles "core_user_" "failed to read source user file: "
      "no user files found to replace" fs2 profilePath (Join profilePath uname) =
      (.ok n, fs2) :=
    replaceFiles_noop hr2u hd2 (by rw [base_join]; exact hcount0) hn0
      (by rw [base_join]; exact hnodes2)
  -- the character source and the character targets
  have hsc : fs2.find (Join profilePath cname) = fs1.find (Join profilePath cname) :=
    fr1.2 _ (fun e _ ht heq => by
      have hname := join_injective heq
      rw [isTarget_iff] at ht
      exact ht.2.2.2 hname.symm)
  have hr2c : fs2.ReadFile (Join profilePath cname) = .ok cc := by
    rw [readFile_congr fr1.1 hsc]
    exact hr1
  have hnodesc := replaceLoop_ok_node "core_char_" profilePath cname cc es1 fs1 0 m fs2 hl1
  have hcount1 := (replaceLoop_ok "core_char_" profilePath cname cc es1 fs1 0 m fs2 hl1).1
  have run2c : replaceFiles "core_char_" "failed to read source character file: "
      "no character files found to replace" fs2 profilePath (Join profilePath cname) =
      (.ok m, fs2) :=
    replaceFiles_noop hr2c hd2 (by rw [base_join]; exact hcount1) hm0
      (by rw [base_join]; exact hnodesc)
  refine ⟨?_, ?_, ?_, ?_⟩
  · unfold ReplaceUserFiles
    rw [run2u]
    rfl
  · unfold ReplaceCharacterFiles
    rw [run2c]
    rfl
  · unfold replacedCount
    simp only [Kind.pattern, Kind.readMsg, Kind.noneMsg]
    rw [run2u, hn]
  · unfold replacedCount
    simp only [Kind.pattern, Kind.readMsg, Kind.noneMsg]
    rw [run2c, hm]

/-- C13, on a profile with two user files and two character files: the first run
overwrites one file of each kind, the second run does the same and changes nothing. -/
theorem replace_twice_witness :
    ReplaceUserFiles fsTwoAndTwo ["p"] ["p", "core_user_1.dat"] = (.ok (), fsTwoAndTwoUsers) ∧
    ReplaceCharacterFiles fsTwoAndTwoUsers ["p"] ["p", "core_char_4.dat"] =
      (.ok (), fsTwoAndTwoDone) ∧
    ReplaceUserFiles fsTwoAndTwoDone ["p"] ["p", "core_user_1.dat"] =
      (.ok (), fsTwoAndTwoDone) ∧
    ReplaceCharacterFiles fsTwoAndTwoDone ["p"] ["p", "core_char_4.dat"] =
      (.ok (), fsTwoAndTwoDone) ∧
    replacedCount .user fsTwoAndTwoDone ["p"] ["p", "core_user_1.dat"] = .ok 1 :=
  have h1 : ReplaceUserFiles fsTwoAndTwo ["p"] (Join ["p"] "core_user_1.dat") =
      (.ok (), fsTwoAndTwoUsers) := by decide
  have h2 : ReplaceCharacterFiles fsTwoAndTwoUsers ["p"] (Join ["p"] "core_char_4.dat") =
      (.ok (), fsTwoAndTwoDone) := by decide
  have h := replace_twice fsTwoAndTwo fsTwoAndTwoUsers fsTwoAndTwoDone ["p"]
    "core_user_1.dat" "core_char_4.dat" ⟨"1", by decide⟩ h1 h2
  ⟨h1, h2, h.1, h.2.1, h.2.2.1.trans (by decide)⟩

/-! ## Claims on the name of the backup -/

/-- With enough fuel, `Nat.toDigitsCore` puts the digits of `n` in front of what it was
given. -/
theorem toDigitsCore_eq (fuel : Nat) : ∀ n, n < fuel → ∀ ds : List Char,
    Nat.toDigitsCore 10 fuel n ds = Nat.toDigits 10 n ++ ds := by
  induction fuel using Nat.strong_induction_on with
  | _ fuel ih =>
    intro n hn ds
    cases fuel with
    | zero => omega
    | succ fuel =>
      unfold Nat.toDigits
      simp only [Nat.toDigitsCore]
      by_cases h0 : n / 10 = 0
      · simp [h0]
      · simp only [h0, if_false]
        have hlt : n / 10 < n := by omega
        rw [ih fuel (by omega) (n / 10) (by omega) _, ih n (by omega) (n / 10) hlt _]
        simp

theorem toDigits_small {n : Nat} (h : n < 10) : Nat.toDigits 10 n = [Nat.digitChar n] := by
  unfold Nat.toDigits
  simp only [Nat.toDigitsCore]
  have h0 : n / 10 = 0 := by omega
  have h1 : n % 10 = n := by omega
  simp [h0, h1]

theorem toDigits_step {n : Nat} (h : 10 ≤ n) :
    Nat.toDigits 10 n = Nat.toDigits 10 (n / 10) ++ [Nat.digitChar (n % 10)] := by
  have h0 : ¬ n / 10 = 0 := by omega
  have hlt : n / 10 < n := by omega
  conv_lhs => unfold Nat.toDigits
  simp only [Nat.toDigitsCore, h0, if_false]
  exact toDigitsCore_eq n (n / 10) hlt _

theorem digitChar_value {k : Nat} (h : k < 10) : (Nat.digitChar k).toNat - 48 = k := by
  interval_cases k <;> decide

/-- The digits `Nat.toDigits` prints write the number they were printed from. -/
theorem digitsValue_toDigits (n : Nat) : digitsValue (Nat.toDigits 10 n) = n := by
  induction n using Nat.strong_induction_on with
  | _ n ih =>
    by_cases h : n < 10
    · rw [toDigits_small h]
      simp [digitsValue, digitChar_value h]
    · rw [toDigits_step (by omega)]
      have hq := ih (n / 10) (by omega)
      unfold digitsValue at hq ⊢
      rw [List.foldl_append, hq]
      simp only [List.foldl_cons, List.foldl_nil]
      rw [digitChar_value (Nat.mod_lt n (by decide))]
      omega

theorem digitsValue_zeros (k : Nat) (l : List Char) :
    digitsValue (List.replicate k '0' ++ l) = digitsValue l := by
  unfold digitsValue
  rw [List.foldl_append]
  have hz : (List.replicate k '0').foldl (fun a c => 10 * a + (c.toNat - 48)) 0 = 0 := by
    induction k with
    | zero => rfl
    | succ k ih =>
      rw [List.replicate_succ, List.foldl_cons]
      exact ih
  rw [hz]

/-- Padding does not hide the number: `appendInt` can be read back. -/
theorem digitsValue_appendInt (n width : Nat) :
    digitsValue (appendInt n width).data = n := by
  unfold appendInt
  simp only
  rw [digitsValue_zeros, digitsValue_toDigits]

theorem appendInt_length_two {n : Nat} (h : n < 100) : (appendInt n 2).data.length = 2 := by
  unfold appendInt
  simp only [List.length_append, List.length_replicate]
  have hle : (Nat.toDigits 10 n).length ≤ 2 :=
    Nat.toDigitsCore_length 10 (by decide) (n + 1) n 2 (by omega) (by decide)
  omega

/-- Two times whose fields print with two digits and that `Format` prints alike lie in
the same calendar minute. -/
theorem format_injective {t1 t2 : Time} (h1 : t1.valid) (h2 : t2.valid)
    (h : t1.Format = t2.Format) : t1.minute = t2.minute := by
  obtain ⟨hM1, hD1, hh1, hm1⟩ := h1
  obtain ⟨hM2, hD2, hh2, hm2⟩ := h2
  have hd := congrArg String.data h
  simp only [Time.Format, String.data_append] at hd
  have l := fun (n : Nat) (hn : n < 100) => appendInt_length_two hn
  obtain ⟨hd, e5⟩ := List.append_inj' hd
    ((l t1.Minute (by omega)).trans (l t2.Minute (by omega)).symm)
  obtain ⟨hd, e4⟩ := List.append_inj' hd
    ((l t1.Hour (by omega)).trans (l t2.Hour (by omega)).symm)
  obtain ⟨hd, _⟩ := List.append_inj' hd rfl
  obtain ⟨hd, e3⟩ := List.append_inj' hd
    ((l t1.Day (by omega)).trans (l t2.Day (by omega)).symm)
  obtain ⟨e1, e2⟩ := List.append_inj' hd
    ((l t1.Month (by omega)).trans (l t2.Month (by omega)).symm)
  have v := fun (a b w : Nat) (e : (appendInt a w).data = (appendInt b w).data) =>
    (digitsValue_appendInt a w).symm.trans ((congrArg digitsValue e).trans
      (digitsValue_appendInt b w))
  unfold Time.minute
  rw [v _ _ _ e1, v _ _ _ e2, v _ _ _ e3, v _ _ _ e4, v _ _ _ e5]

/-- The path a successful `CreateBackup` returns, and the file it leaves there. -/
theorem createBackup_ok_path {env : BackupEnv} {root : WalkRoot} {profileName : String}
    {p : Path} (h : (CreateBackup env root profileName).result = .ok p) :
    p = Join ["backup"] ("settings_" ++ profileName ++ "_" ++ env.now.Format ++ ".zip") ∧
      ∃ archive, (CreateBackup env root profileName).written = some (p, archive) := by
  revert h
  unfold CreateBackup
  rcases env.mkdirAll with _ | e1
  · rcases env.create with _ | e2
    · rcases walk env.deflate root with ⟨res, archive⟩
      cases res with
      | error err =>
        intro h
        simp at h
      | ok u =>
        rcases env.close with _ | e3
        · intro h
          simp only [Except.ok.injEq] at h
          exact ⟨h.symm, archive, by simp only [h]⟩
        · intro h
          simp at h
    · intro h
      simp at h
  · intro h
    simp at h

/-- C14, as stated, fails. In the location Europe/Berlin the instants 2024-10-27 00:30 UTC
and 01:30 UTC lie in different minutes, an hour apart, and the local clock shows 02:30 on
27 October at both, the second time after the end of summer time: the two calls return the
same path. -/
theorem createBackup_same_path_an_hour_apart :
    1729989000 / 60 ≠ 1729992600 / 60 ∧
    localTime europeBerlin2024 1729989000 = ⟨2024, 10, 27, 2, 30, 0⟩ ∧
    localTime europeBerlin2024 1729992600 = ⟨2024, 10, 27, 2, 30, 0⟩ ∧
    (CreateBackup { exampleBackupEnv with now := localTime europeBerlin2024 1729989000 }
      (.dir ⟨true, true, true, 4096⟩ exampleTree) "Default").result =
      .ok ["backup", "settings_Default_20241027-0230.zip"] ∧
    (CreateBackup { exampleBackupEnv with now := localTime europeBerlin2024 1729992600 }
      (.dir ⟨true, true, true, 4096⟩ exampleTree) "Default").result =
      .ok ["backup", "settings_Default_20241027-0230.zip"] := by
  decide

/-- C14, amended. The path a successful `CreateBackup` returns is
`backup/settings_<profileName>_<YYYYMMDD-HHMM>.zip`, where the timestamp is the local
clock's reading of the current time cut to the minute, and nothing else enters it. So for
one label, two calls at which the local clock shows the same calendar minute return the
same path, each leaving its archive there, and two calls at which it shows different
calendar minutes return different paths. -/
theorem createBackup_path_by_minute (env1 env2 : BackupEnv) (root1 root2 : WalkRoot)
    (profileName : String) (p1 p2 : Path)
    (h1 : (CreateBackup env1 root1 profileName).result = .ok p1)
    (h2 : (CreateBackup env2 root2 profileName).result = .ok p2) :
    p1 = Join ["backup"] ("settings_" ++ profileName ++ "_" ++ env1.now.Format ++ ".zip") ∧
    (∃ archive, (CreateBackup env1 root1 profileName).written = some (p1, archive)) ∧
    (∃ archive, (CreateBackup env2 root2 profileName).written = some (p2, archive)) ∧
    (env1.now.minute = env2.now.minute → p1 = p2) ∧
    (env1.now.valid → env2.now.valid → env1.now.minute ≠ env2.now.minute → p1 ≠ p2) := by
  obtain ⟨e1, w1⟩ := createBackup_ok_path h1
  obtain ⟨e2, w2⟩ := createBackup_ok_path h2
  refine ⟨e1, w1, w2, ?_, ?_⟩
  · intro hmin
    simp only [Time.minute, Prod.mk.injEq] at hmin
    obtain ⟨hy, hmo, hd, hh, hmi⟩ := hmin
    rw [e1, e2]
    simp only [Time.Format, hy, hmo, hd, hh, hmi]
  · intro hv1 hv2 hne heq
    apply hne
    apply format_injective hv1 hv2
    rw [e1, e2] at heq
    have hname := join_injective heq
    have hd := congrArg String.data hname
    simp only [String.data_append, List.append_assoc] at hd
    have hd2 := List.append_cancel_left (List.append_cancel_left (List.append_cancel_left hd))
    exact String.ext (List.append_cancel_right hd2)

/-- C14, amended, on two calls for one label in the minute 07:05 of 9 March 2024, at
seconds 59 and 3: the same path. -/
theorem createBackup_path_by_minute_witness :
    (CreateBackup exampleBackupEnv (.dir ⟨true, true, true, 4096⟩ exampleTree)
      "Default").result = .ok ["backup", "settings_Default_20240309-0705.zip"] ∧
    (CreateBackup { exampleBackupEnv with now := ⟨2024, 3, 9, 7, 5, 3⟩ }
      (.file ⟨[], true, true, true⟩) "Default").result =
      .ok ["backup", "settings_Default_20240309-0705.zip"] :=
  have h1 : (CreateBackup exampleBackupEnv (.dir ⟨true, true, true, 4096⟩ exampleTree)
      "Default").result = .ok ["backup", "settings_Default_20240309-0705.zip"] := by decide
  have h2 : (CreateBackup { exampleBackupEnv with now := ⟨2024, 3, 9, 7, 5, 3⟩ }
      (.file ⟨[], true, true, true⟩) "Default").result =
      .ok (Join ["backup"]
        ("settings_Default_" ++ Time.Format ⟨2024, 3, 9, 7, 5, 3⟩ ++ ".zip")) := by
    decide
  have h := createBackup_path_by_minute exampleBackupEnv
    { exampleBackupEnv with now := ⟨2024, 3, 9, 7, 5, 3⟩ } _ _ "Default" _ _ h1 h2
  ⟨h1, h2.trans (congrArg Except.ok (h.2.2.2.1 (by decide)).symm)⟩

end EveProfileSync
